import Mathlib

/-!
Verification of the NumberPlace (jigsaw Sudoku) core against its specification.

The development shallowly embeds the TypeScript sources:
* `src/src/utils/sudokuSolver.ts`   (class `SudokuSolver`)
* `src/src/utils/imageProcessor.ts` (line classification, border enforcement,
  region reconstruction by connected components)
* `src/unnamed/part_004`            (class `SudokuValidator`)
* `src/unnamed/part_002`            (`App.tsx`: `validateInitialGrid` and the
  condition under which `handleImageUpload` invokes the solver)

A 9×9 grid of `number | null` cells is embedded as a total function
`ℕ → ℕ → Option ℕ`; the code only ever reads indices 0..8 (and positions
stored in region lists).  The recursive backtracking search of
`SudokuSolver.solveSudoku` is embedded with an explicit structural `fuel`
argument so that it is executable by kernel reduction; each recursive level
fills one empty cell, so the recursion depth is at most 81 and the public
entry point passes fuel 82, which is never exhausted.  The iteration counter
(`this.iterations`) and the budget (`this.maxIterations = 1000000`) are
threaded explicitly, exactly as in the source.
-/

set_option maxRecDepth 40000

namespace NumberPlace

/-- A cell of the grid: `number | null` in the source. -/
abbrev Cell := Option ℕ

/-- `SudokuGrid`: a 9×9 matrix of cells, embedded as a total function; the
code reads only row, col ∈ [0,8]. -/
abbrev Grid := ℕ → ℕ → Cell

/-- A `[row, col]` pair as stored in region lists. -/
abbrev Pos := ℕ × ℕ

/-- `Region = Array<[number, number]>`. -/
abbrev Region := List Pos

/-- `Regions = Array<Region>`. -/
abbrev Regions := List Region

/-- Functional update of a single cell (the source mutates
`this.grid[row][col]`). -/
def setCell (g : Grid) (r c : ℕ) (v : Cell) : Grid :=
  fun r' c' => if r' = r ∧ c' = c then v else g r' c'

/-- The 81 in-range positions in row-major order, as traversed by the nested
`for (row …) for (col …)` loops of the source. -/
def cellsList : List Pos :=
  ((List.range 9).map (fun r => (List.range 9).map (fun c => (r, c)))).flatten

/-- Build a grid from a 9×9 list-of-lists literal, `0` denoting `null`. -/
def gridOfLists (rows : List (List ℕ)) : Grid :=
  fun r c =>
    let v := (rows.getD r []).getD c 0
    if v = 0 then none else some v

/-! ### Specification predicates (§3 data model, §4.4 preconditions) -/

/-- The grid has no empty in-range cell. -/
def GridComplete (g : Grid) : Prop := ∀ r < 9, ∀ c < 9, g r c ≠ none

/-- `g'` agrees with `g` on every filled cell of `g`. -/
def ExtendsGrid (g g' : Grid) : Prop :=
  ∀ r c v, g r c = some v → g' r c = some v

/-- Every filled in-range cell holds a digit 1..9 (§3: cell value). -/
def ValuesInRange (g : Grid) : Prop :=
  ∀ r < 9, ∀ c < 9, 1 ≤ (g r c).getD 1 ∧ (g r c).getD 1 ≤ 9

/-- The filled cells satisfy row, column and region uniqueness (§4.4
precondition: the given grid already satisfies the constraints among its
filled cells). -/
def ConsistentGrid (g : Grid) (regions : Regions) : Prop :=
  (∀ r < 9, ∀ c₁ < 9, ∀ c₂ < 9, c₁ ≠ c₂ →
    g r c₁ = none ∨ g r c₁ ≠ g r c₂) ∧
  (∀ c < 9, ∀ r₁ < 9, ∀ r₂ < 9, r₁ ≠ r₂ →
    g r₁ c = none ∨ g r₁ c ≠ g r₂ c) ∧
  (∀ region ∈ regions, ∀ p ∈ region, ∀ q ∈ region, p ≠ q →
    g p.1 p.2 = none ∨ g p.1 p.2 ≠ g q.1 q.2)

/-- §3: `Regions` is an ordered collection of 9 regions of 9 in-range
positions each, covering each of the 81 positions exactly once. -/
def ValidPartition (regions : Regions) : Prop :=
  regions.length = 9 ∧
  (∀ region ∈ regions, region.length = 9 ∧ ∀ p ∈ region, p.1 < 9 ∧ p.2 < 9) ∧
  (∀ p ∈ cellsList, regions.flatten.count p = 1)

instance (g : Grid) : Decidable (GridComplete g) := by
  unfold GridComplete; infer_instance

instance (g : Grid) : Decidable (ValuesInRange g) := by
  unfold ValuesInRange; infer_instance

instance (g : Grid) (regions : Regions) :
    Decidable (ConsistentGrid g regions) := by
  unfold ConsistentGrid
  exact @instDecidableAnd _ _ (Nat.decidableBallLT 9 _)
    (@instDecidableAnd _ _ (Nat.decidableBallLT 9 _) (by infer_instance))

instance (regions : Regions) : Decidable (ValidPartition regions) := by
  unfold ValidPartition; infer_instance

namespace SudokuSolver

/-- Row check of `isValidMove` (sudokuSolver.ts lines 51-56): some `i < 9`
has `grid[row][i] === num`. -/
def rowHas (g : Grid) (row num : ℕ) : Bool :=
  (List.range 9).any fun i => g row i == some num

/-- Column check of `isValidMove` (sudokuSolver.ts lines 58-63). -/
def colHas (g : Grid) (col num : ℕ) : Bool :=
  (List.range 9).any fun i => g i col == some num

/-- `findRegionContaining` (sudokuSolver.ts lines 78-87): the first region in
the list that contains `[row, col]`, if any. -/
def findRegionContaining (regions : Regions) (row col : ℕ) : Option Region :=
  regions.find? fun region => region.any fun p => p.1 == row && p.2 == col

/-- Region check of `isValidMove` (sudokuSolver.ts lines 65-73). -/
def regionHas (g : Grid) (region : Region) (num : ℕ) : Bool :=
  region.any fun p => g p.1 p.2 == some num

/-- `isValidMove` (sudokuSolver.ts lines 50-76): the row, the column and (when
the cell lies in some region) the first containing region must not already
hold `num`. -/
def isValidMove (g : Grid) (regions : Regions) (row col num : ℕ) : Bool :=
  !rowHas g row num && !colHas g col num &&
    match findRegionContaining regions row col with
    | some region => !regionHas g region num
    | none => true

/-- The first empty cell in row-major order; `solveSudoku`'s nested loops
stop at the first `grid[row][col] === null`. -/
def firstEmpty (g : Grid) : Option Pos :=
  cellsList.find? fun p => (g p.1 p.2).isNone

/-- The candidate digits `for (let num = 1; num <= 9; num++)`. -/
def candidates : List ℕ := [1, 2, 3, 4, 5, 6, 7, 8, 9]

/-- The inner candidate loop of `solveSudoku` (lines 34-42), abstracted over
the recursive call `rec` (which receives the updated grid and the current
iteration counter).  On child failure the cell is restored
(`this.grid[row][col] = null`), i.e. the loop continues from the original
grid `g`, but the iteration counter advanced by the child persists. -/
def tryNums (rec : Grid → ℕ → Bool × Grid × ℕ) (regions : Regions) (g : Grid)
    (iter row col : ℕ) : List ℕ → Bool × Grid × ℕ
  | [] => (false, g, iter)
  | num :: rest =>
    if isValidMove g regions row col num then
      let res := rec (setCell g row col (some num)) iter
      if res.1 then res
      else tryNums rec regions g res.2.2 row col rest
    else tryNums rec regions g iter row col rest

/-- `solveSudoku` (sudokuSolver.ts lines 24-48), with the iteration counter
threaded explicitly.  `fuel` is a structural-recursion artifact: each
recursive call fills one empty cell, so with fuel larger than the number of
empty cells (at most 81) the fuel-0 branch is unreachable. -/
def solveSudoku (maxIter : ℕ) (regions : Regions) :
    ℕ → Grid → ℕ → Bool × Grid × ℕ
  | 0, g, iter => (false, g, iter)
  | fuel + 1, g, iter =>
    let iter' := iter + 1
    if iter' > maxIter then (false, g, iter')
    else
      match firstEmpty g with
      | none => (true, g, iter')
      | some p =>
        tryNums (solveSudoku maxIter regions fuel) regions g iter' p.1 p.2
          candidates

/-- `solve` with the budget as a parameter (the value of the private field
`this.maxIterations`); the counter is reset to 0 on entry
(sudokuSolver.ts lines 14-22). -/
def solveWith (maxIter : ℕ) (g : Grid) (regions : Regions) : Option Grid :=
  let res := solveSudoku maxIter regions 82 g 0
  if res.1 then some res.2.1 else none

/-- `solve` (sudokuSolver.ts lines 14-22) with the field's initial value
`maxIterations = 1000000`; returns the solved grid or `null`. -/
def solve (g : Grid) (regions : Regions) : Option Grid :=
  solveWith 1000000 g regions

/-- `createStandardRegions` (sudokuSolver.ts lines 138-154): the nine 3×3
blocks in block-row-major order. -/
def createStandardRegions : Regions :=
  ((List.range 3).map fun blockRow =>
    (List.range 3).map fun blockCol =>
      ((List.range 3).map fun dr =>
        (List.range 3).map fun dc =>
          (blockRow * 3 + dr, blockCol * 3 + dc)).flatten).flatten

/-- Invariant carried through a successful search: the result is complete,
extends the start grid, and preserves range and consistency. -/
def SuccessSpec (regions : Regions) (g : Grid) (res : Bool × Grid × ℕ) : Prop :=
  res.1 = true →
    GridComplete res.2.1 ∧ ExtendsGrid g res.2.1 ∧
    (ConsistentGrid g regions → ValuesInRange g →
      ConsistentGrid res.2.1 regions ∧ ValuesInRange res.2.1)

end SudokuSolver

namespace SudokuValidator

/-- One entry of `SudokuValidationResult.errors`. -/
structure VError where
  row : ℕ
  col : ℕ
  message : String
deriving DecidableEq

/-- `SudokuValidationResult`. -/
structure ValidationResult where
  isValid : Bool
  errors : List VError
deriving DecidableEq

/-- `checkSudokuRules` (part_004 lines 36-81): at most one row error, one
column error and one region error for the cell, in that order. -/
def checkSudokuRules (g : Grid) (row col value : ℕ) (regions : Option Regions) :
    List VError :=
  (if (List.range 9).any (fun i => i != col && g row i == some value) then
      [⟨row, col, "行に同じ数字" ++ toString value ++ "があります"⟩]
    else []) ++
  (if (List.range 9).any (fun i => i != row && g i col == some value) then
      [⟨row, col, "列に同じ数字" ++ toString value ++ "があります"⟩]
    else []) ++
  (match regions with
   | some rs =>
     match SudokuSolver.findRegionContaining rs row col with
     | some region =>
       if region.any (fun p => (!(p.1 == row && p.2 == col)) &&
           g p.1 p.2 == some value) then
         [⟨row, col, "領域内に同じ数字" ++ toString value ++ "があります"⟩]
       else []
     | none => []
   | none => [])

/-- The errors contributed by one cell of the row-major scan of `validate`
(part_004 lines 7-28): a clue that was changed yields the fixed message and
skips the rule check (`continue`); otherwise a filled cell is rule-checked. -/
def perCellErrors (original current : Grid) (regions : Option Regions)
    (p : Pos) : List VError :=
  let originalValue := original p.1 p.2
  let currentValue := current p.1 p.2
  if originalValue ≠ none ∧ currentValue ≠ originalValue then
    [⟨p.1, p.2, "元の数字は変更できません"⟩]
  else
    match currentValue with
    | some v => checkSudokuRules current p.1 p.2 v regions
    | none => []

/-- `validate` (part_004 lines 4-34). -/
def validate (original current : Grid) (regions : Option Regions) :
    ValidationResult :=
  let errors := (cellsList.map (perCellErrors original current regions)).flatten
  ⟨errors.isEmpty, errors⟩

end SudokuValidator

namespace App

/-- The errors contributed by one cell of `validateInitialGrid`
(part_002 lines 12-51): for each filled cell, at most one row-duplicate, one
column-duplicate and one region-duplicate message. -/
def initialCellErrors (g : Grid) (regions : Option Regions) (p : Pos) :
    List String :=
  match g p.1 p.2 with
  | none => []
  | some value =>
    (if (List.range 9).any (fun i => i != p.2 && g p.1 i == some value) then
        ["位置の数字が行で重複しています"]
      else []) ++
    (if (List.range 9).any (fun i => i != p.1 && g i p.2 == some value) then
        ["位置の数字が列で重複しています"]
      else []) ++
    (match regions with
     | some rs =>
       match rs.find? (fun region => region.any fun q =>
           q.1 == p.1 && q.2 == p.2) with
       | some region =>
         if region.any (fun q => (!(q.1 == p.1 && q.2 == p.2)) &&
             g q.1 q.2 == some value) then
           ["位置の数字が領域で重複しています"]
         else []
       | none => []
     | none => [])

/-- `validateInitialGrid` (part_002 lines 12-51). -/
def validateInitialGrid (g : Grid) (regions : Option Regions) : List String :=
  (cellsList.map (initialCellErrors g regions)).flatten

/-- `App.handleImageUpload` (part_002 lines 94-141) invokes
`new SudokuSolver(originalGrid, regions).solve()` exactly when
`validateInitialGrid` returned no error; there is no other gate between
region reconstruction and the solver. -/
def invokesSolver (g : Grid) (regions : Option Regions) : Bool :=
  (validateInitialGrid g regions).isEmpty

end App

namespace ImageProcessor

/-- The 90 segment indices of one orientation: line position 0..9, cell
index 0..8, in the order of the counting loops of `countLinePixels`. -/
def segIndices : List Pos :=
  ((List.range 10).map (fun i => (List.range 9).map (fun j => (i, j)))).flatten

/-- `allCounts` (imageProcessor.ts lines 342-345):
`[...horizontalLines.flat(), ...verticalLines.flat()]` — the horizontal
counts followed by the vertical counts, 180 numbers in total. -/
def allCounts (H V : ℕ → ℕ → ℕ) : List ℕ :=
  (segIndices.map fun p => H p.1 p.2) ++ (segIndices.map fun p => V p.1 p.2)

/-- `sortedCounts` (line 346): the counts sorted ascending. -/
def sortedCounts (H V : ℕ → ℕ → ℕ) : List ℕ :=
  (allCounts H V).insertionSort (· ≤ ·)

/-- The `median` of line 347: `sortedCounts[Math.floor(length / 2)]`. -/
def medianCount (H V : ℕ → ℕ → ℕ) : ℕ :=
  (sortedCounts H V).getD ((allCounts H V).length / 2) 0

/-- `thickThreshold = median * 1.5` (line 348). -/
def thickThreshold (H V : ℕ → ℕ → ℕ) : ℚ :=
  (medianCount H V : ℚ) * (3 / 2)

/-- `classifyLines` (lines 356-407): a segment is thick iff its count
strictly exceeds the threshold `median * 1.5`; over integer counts this is
exactly `2 * count > 3 * median` (the float arithmetic of the source is
exact on these values).  Returns the pair
(`thickHorizontal`, `thickVertical`). -/
def classifyLines (H V : ℕ → ℕ → ℕ) : (ℕ → ℕ → Bool) × (ℕ → ℕ → Bool) :=
  (fun i j => decide (3 * medianCount H V < 2 * H i j),
   fun i j => decide (3 * medianCount H V < 2 * V i j))

/-- `stats.totalLines` of `classifyLines`: one entry per classified segment
(90 horizontal + 90 vertical). -/
def totalLines (H V : ℕ → ℕ → ℕ) : ℕ :=
  (allCounts H V).length

/-- `enforceBorderThickLines` (lines 410-446): horizontal line positions 0
and 9 and vertical line positions 0 and 9 are forced thick for every cell
index 0..8. -/
def enforceBorderThickLines (tHV : (ℕ → ℕ → Bool) × (ℕ → ℕ → Bool)) :
    (ℕ → ℕ → Bool) × (ℕ → ℕ → Bool) :=
  (fun i j => if (i = 0 ∨ i = 9) ∧ j < 9 then true else tHV.1 i j,
   fun i j => if (i = 0 ∨ i = 9) ∧ j < 9 then true else tHV.2 i j)

/-- Steps 3-4 of `detectLinesAdvanced` (lines 589-608): classify from the
measured counts, then enforce the border.  (Steps 1-2, pixel analysis on the
`ImageData`, produce the count maps `H`, `V` and are outside this core.) -/
def detectLinesAdvanced (H V : ℕ → ℕ → ℕ) :
    (ℕ → ℕ → Bool) × (ℕ → ℕ → Bool) :=
  enforceBorderThickLines (classifyLines H V)

/-- `buildCellConnectionGraph` (lines 474-517) as the characteristic
function of the symmetric adjacency matrix it fills: cells `i` and `i+1`
(same row, `i % 9 < 8`) are connected iff `thickVertical[i%9+1][i/9]` is
thin, and cells `i` and `i+9` (`i < 72`) iff `thickHorizontal[i/9+1][i%9]`
is thin; both directions are set. -/
def connGraph (tH tV : ℕ → ℕ → Bool) (i j : ℕ) : Bool :=
  (j == i + 1 && i < 81 && i % 9 < 8 && !tV (i % 9 + 1) (i / 9)) ||
  (i == j + 1 && j < 81 && j % 9 < 8 && !tV (j % 9 + 1) (j / 9)) ||
  (j == i + 9 && i < 72 && !tH (i / 9 + 1) (i % 9)) ||
  (i == j + 9 && j < 72 && !tH (j / 9 + 1) (j % 9))

/-- Mark one cell visited (`visited[cell] = true`). -/
def setVisited (v : ℕ → Bool) (n : ℕ) : ℕ → Bool :=
  fun m => if m = n then true else v m

/-- The BFS inner loop of `findConnectedRegions` (lines 531-544): pop the
front of the queue, append its `[row, col]` to the region, and enqueue (and
mark) every still-unvisited connected neighbor in index order 0..80.
`fuel` is a structural-recursion artifact; every iteration pops one cell and
each cell is enqueued at most once, so fuel `queue.length + #unvisited`
suffices, and the public entry point passes 100 ≥ 1 + 81. -/
def bfs (conn : ℕ → ℕ → Bool) :
    ℕ → List ℕ → (ℕ → Bool) → List Pos → List Pos × (ℕ → Bool)
  | 0, _, visited, region => (region, visited)
  | _ + 1, [], visited, region => (region, visited)
  | fuel + 1, cell :: rest, visited, region =>
    let region' := region ++ [(cell / 9, cell % 9)]
    let neighbors := (List.range 81).filter fun nb =>
      !visited nb && conn cell nb
    let visited' := neighbors.foldl setVisited visited
    bfs conn fuel (rest ++ neighbors) visited' region'

/-- One iteration of the outer start-cell loop of `findConnectedRegions`
(lines 524-547): a still-unvisited start is marked and explored by BFS and
its component appended to the region list. -/
def regionStep (conn : ℕ → ℕ → Bool) (st : (ℕ → Bool) × Regions)
    (startCell : ℕ) : (ℕ → Bool) × Regions :=
  if st.1 startCell then st
  else
    let res := bfs conn 100 [startCell] (setVisited st.1 startCell) []
    (res.2, st.2 ++ [res.1])

/-- `findConnectedRegions` (lines 520-551): scan start cells 0..80; each
still-unvisited start is marked and explored by BFS, yielding one region per
connected component in discovery order. -/
def findConnectedRegions (conn : ℕ → ℕ → Bool) : Regions :=
  ((List.range 81).foldl (regionStep conn) ((fun _ => false), [])).2

/-- `constructRegionsFromThickLines` (lines 449-471). -/
def constructRegionsFromThickLines (tH tV : ℕ → ℕ → Bool) : Regions :=
  findConnectedRegions (connGraph tH tV)

/-- Cell index to `[row, col]` pair, as pushed by the BFS. -/
def cellOf (x : ℕ) : Pos := (x / 9, x % 9)

/-- One step of the reconstruction relation: the connection matrix links
the two cells. -/
def Adj (conn : ℕ → ℕ → Bool) (a b : ℕ) : Prop := conn a b = true

/-- Reachability in the thin-boundary graph. -/
abbrev Reach (conn : ℕ → ℕ → Bool) : ℕ → ℕ → Prop :=
  Relation.ReflTransGen (Adj conn)

/-- Number of not-yet-visited cells. -/
def unvisitedCount (v : ℕ → Bool) : ℕ :=
  ((Finset.range 81).filter fun x => v x = false).card

/-- The components invariant carried through the outer start-cell loop. -/
def ComponentsOK (conn : ℕ → ℕ → Bool) (CS : List (List ℕ)) : Prop :=
  ∀ C ∈ CS, C.Nodup ∧ (∀ x ∈ C, x < 81) ∧
    ∃ s, s < 81 ∧ ∀ x, x ∈ C ↔ Reach conn s x

end ImageProcessor

/-! ### Concrete inputs used by witnesses and counterexamples -/

/-- The all-empty grid. -/
def emptyGrid : Grid := fun _ _ => none

/-- The grid every cell of which holds the digit 1. -/
def allOnes : Grid := fun _ _ => some 1

/-- A complete grid satisfying the standard-box Sudoku rules
(the cyclic pattern `(3*(r%3) + r/3 + c) % 9 + 1`). -/
def gSolved : Grid := fun r c => some ((3 * (r % 3) + r / 3 + c) % 9 + 1)

/-- `gSolved` with cell (0,0) emptied: solvable in a few steps. -/
def gNearly : Grid := fun r c => if r = 0 ∧ c = 0 then none else gSolved r c

/-- A grid whose single empty cell (0,8) admits no digit: row 0 holds 1..8
and column 8 holds 9 at (1,8).  The solver exhausts its search space in one
invocation. -/
def gUnsat : Grid := fun r c =>
  if r = 0 ∧ c = 8 then none
  else if r = 1 ∧ c = 8 then some 9
  else if r = 0 then some (c + 1)
  else some 1

/-- The all-zero ink-count map (Scenario B input: no interior ink). -/
def zeroCounts : ℕ → ℕ → ℕ := fun _ _ => 0

/-- The boundary classification with exactly the outer perimeter thick. -/
def borderOnly : ℕ → ℕ → Bool := fun i j => decide ((i = 0 ∨ i = 9) ∧ j < 9)

/-- The single 81-cell region that Scenario B's boundary map reconstructs
to (BFS discovery order from cell 0). -/
def scenarioBRegion : Region :=
  [(0, 0), (0, 1), (1, 0), (0, 2), (1, 1), (2, 0), (0, 3), (1, 2), (2, 1),
   (3, 0), (0, 4), (1, 3), (2, 2), (3, 1), (4, 0), (0, 5), (1, 4), (2, 3),
   (3, 2), (4, 1), (5, 0), (0, 6), (1, 5), (2, 4), (3, 3), (4, 2), (5, 1),
   (6, 0), (0, 7), (1, 6), (2, 5), (3, 4), (4, 3), (5, 2), (6, 1), (7, 0),
   (0, 8), (1, 7), (2, 6), (3, 5), (4, 4), (5, 3), (6, 2), (7, 1), (8, 0),
   (1, 8), (2, 7), (3, 6), (4, 5), (5, 4), (6, 3), (7, 2), (8, 1), (2, 8),
   (3, 7), (4, 6), (5, 5), (6, 4), (7, 3), (8, 2), (3, 8), (4, 7), (5, 6),
   (6, 5), (7, 4), (8, 3), (4, 8), (5, 7), (6, 6), (7, 5), (8, 4), (5, 8),
   (6, 7), (7, 6), (8, 5), (6, 8), (7, 7), (8, 6), (7, 8), (8, 7), (8, 8)]

/-- A boundary classification whose thin segments connect exactly the cells
of each row: every horizontal line thick, every vertical line thin.  Its
connected components are the nine rows. -/
def rowsThickH : ℕ → ℕ → Bool := fun _ _ => true

/-- Companion to `rowsThickH`: all vertical segments thin. -/
def rowsThickV : ℕ → ℕ → Bool := fun _ _ => false


end NumberPlace

/-! ## Lemmas and claim theorems -/

namespace NumberPlace

lemma mem_cellsList {p : Pos} : p ∈ cellsList ↔ p.1 < 9 ∧ p.2 < 9 := by
  obtain ⟨r, c⟩ := p
  simp only [cellsList, List.mem_flatten, List.mem_map, List.mem_range]
  constructor
  · rintro ⟨l, ⟨r', hr', rfl⟩, hm⟩
    simp only [List.mem_map, List.mem_range] at hm
    obtain ⟨c', hc', hp⟩ := hm
    obtain ⟨rfl, rfl⟩ := Prod.mk.injEq .. ▸ hp
    exact ⟨hr', hc'⟩
  · rintro ⟨hr, hc⟩
    exact ⟨_, ⟨r, hr, rfl⟩, by simp [hc]⟩

lemma cellsList_nodup : cellsList.Nodup := by decide

open ImageProcessor in
/-- C5: the classifier's shape facts, with the original (false) segment
count 90.  `totalLines` is the `stats.totalLines` field produced by
`classifyLines`: it is 180, not 90 — the 9×9 grid has 90 horizontal plus 90
vertical boundary segments, and the median is taken across all 180. -/
theorem C5_counterexample :
    totalLines zeroCounts zeroCounts = 180 ∧
    totalLines zeroCounts zeroCounts ≠ 90 := by decide

open ImageProcessor in
/-- C5 (amended): the classifier sorts all 180 segment counts (90 horizontal
then 90 vertical) ascending, takes the element at index ⌊180/2⌋ = 90 as the
median, sets the threshold to 1.5 × that median, and classifies a segment as
thick iff its count strictly exceeds the threshold, producing a
classification entry for every segment. -/
theorem C5_classification (H V : ℕ → ℕ → ℕ) :
    totalLines H V = 180 ∧
    List.Sorted (· ≤ ·) (sortedCounts H V) ∧
    (sortedCounts H V).Perm (allCounts H V) ∧
    medianCount H V = (sortedCounts H V).getD 90 0 ∧
    (∀ i j, (classifyLines H V).1 i j = true ↔
      (H i j : ℚ) > thickThreshold H V) ∧
    (∀ i j, (classifyLines H V).2 i j = true ↔
      (V i j : ℚ) > thickThreshold H V) := by
  have hseg : segIndices.length = 90 := by decide
  have hlen : (allCounts H V).length = 180 := by
    simp [allCounts, hseg]
  have hthr : ∀ x : ℕ, (3 * medianCount H V < 2 * x) ↔
      ((x : ℚ) > thickThreshold H V) := by
    intro x
    rw [thickThreshold, gt_iff_lt]
    constructor
    · intro h
      have h' : ((3 * medianCount H V : ℕ) : ℚ) < ((2 * x : ℕ) : ℚ) := by
        exact_mod_cast h
      push_cast at h'
      linarith
    · intro h
      have h' : ((3 * medianCount H V : ℕ) : ℚ) < ((2 * x : ℕ) : ℚ) := by
        push_cast
        linarith
      exact_mod_cast h'
  refine ⟨hlen, ?_, ?_, ?_, ?_, ?_⟩
  · exact List.sorted_insertionSort _ _
  · exact List.perm_insertionSort _ _
  · rw [medianCount, hlen]
  · intro i j
    simpa [classifyLines] using hthr (H i j)
  · intro i j
    simpa [classifyLines] using hthr (V i j)

open ImageProcessor in
/-- C6: after classification and border post-processing, every segment on
the outer perimeter (horizontal line positions 0 and 9, vertical line
positions 0 and 9) is thick, whatever the measured counts were. -/
theorem C6_border_forced (H V : ℕ → ℕ → ℕ) (j : ℕ) (hj : j < 9) :
    (detectLinesAdvanced H V).1 0 j = true ∧
    (detectLinesAdvanced H V).1 9 j = true ∧
    (detectLinesAdvanced H V).2 0 j = true ∧
    (detectLinesAdvanced H V).2 9 j = true := by
  simp [detectLinesAdvanced, enforceBorderThickLines, hj]

open ImageProcessor in
/-- Witness for C6 at the all-zero count map and cell index 0. -/
theorem C6_witness :
    0 < 9 ∧
    ((detectLinesAdvanced zeroCounts zeroCounts).1 0 0 = true ∧
     (detectLinesAdvanced zeroCounts zeroCounts).1 9 0 = true ∧
     (detectLinesAdvanced zeroCounts zeroCounts).2 0 0 = true ∧
     (detectLinesAdvanced zeroCounts zeroCounts).2 9 0 = true) :=
  ⟨by decide, C6_border_forced zeroCounts zeroCounts 0 (by decide)⟩

open SudokuSolver in
/-- C10: for a position covered by no region, `findRegionContaining` returns
nothing and `isValidMove` degenerates to the row and column checks alone;
the region constraint is silently skipped. -/
theorem C10_uncovered_cell (g : Grid) (regions : Regions) (r c num : ℕ)
    (h : ∀ region ∈ regions, (r, c) ∉ region) :
    findRegionContaining regions r c = none ∧
    isValidMove g regions r c num = (!rowHas g r num && !colHas g c num) := by
  have hf : findRegionContaining regions r c = none := by
    rw [findRegionContaining, List.find?_eq_none]
    intro region hreg
    simp only [List.any_eq_true, not_exists, Bool.and_eq_true, beq_iff_eq,
      not_and]
    rintro ⟨a, b⟩ hab h1 h2
    subst h1; subst h2
    exact absurd hab (h region hreg)
  refine ⟨hf, ?_⟩
  rw [isValidMove, hf, Bool.and_true]

open SudokuSolver in
/-- Witness for C10: cell (5,5) is covered by no region of `[[(0,0)]]`. -/
theorem C10_witness :
    (∀ region ∈ ([[(0, 0)]] : Regions), (5, 5) ∉ region) ∧
    (findRegionContaining [[(0, 0)]] 5 5 = none ∧
     isValidMove emptyGrid [[(0, 0)]] 5 5 3 =
       (!rowHas emptyGrid 5 3 && !colHas emptyGrid 5 3)) :=
  ⟨by decide, C10_uncovered_cell emptyGrid [[(0, 0)]] 5 5 3 (by decide)⟩

end NumberPlace

namespace NumberPlace

open SudokuValidator in
/-- C8: a changed clue always yields an invalid result with a violation
recorded at exactly the mutated position, whatever the rest of the candidate
grid looks like. -/
theorem C8_clue_mutation (orig cur : Grid) (regions : Option Regions)
    (r c v : ℕ) (hr : r < 9) (hc : c < 9) (ho : orig r c = some v)
    (hd : cur r c ≠ some v) :
    (validate orig cur regions).isValid = false ∧
    ∃ e ∈ (validate orig cur regions).errors, e.row = r ∧ e.col = c := by
  have hcell : perCellErrors orig cur regions (r, c) =
      [⟨r, c, "元の数字は変更できません"⟩] := by
    rw [perCellErrors]
    simp only [ho]
    rw [if_pos ⟨by simp, by simpa [ho] using hd⟩]
  have he : (⟨r, c, "元の数字は変更できません"⟩ : VError) ∈
      (validate orig cur regions).errors := by
    rw [validate]
    simp only [List.mem_flatten]
    exact ⟨_, List.mem_map_of_mem _ (mem_cellsList.mpr ⟨hr, hc⟩),
      by rw [hcell]; exact List.mem_singleton.mpr rfl⟩
  refine ⟨?_, ⟨_, he, rfl, rfl⟩⟩
  have hne := List.ne_nil_of_mem he
  rw [validate] at hne ⊢
  simpa using hne

open SudokuValidator in
/-- Witness for C8: the clue 1 at (0,0) of `allOnes` is erased in
`emptyGrid`. -/
theorem C8_witness :
    (0 : ℕ) < 9 ∧ allOnes 0 0 = some 1 ∧ emptyGrid 0 0 ≠ some 1 ∧
    ((validate allOnes emptyGrid none).isValid = false ∧
     ∃ e ∈ (validate allOnes emptyGrid none).errors,
       e.row = 0 ∧ e.col = 0) :=
  ⟨by decide, rfl, by decide,
    C8_clue_mutation allOnes emptyGrid none 0 0 1 (by decide) (by decide) rfl
      (by decide)⟩

open ImageProcessor in
/-- Scenario B's boundary map (all counts zero, border enforced thick)
reconstructs to the single 81-cell region `scenarioBRegion`. -/
lemma scenarioB_regions_eq :
    constructRegionsFromThickLines (detectLinesAdvanced zeroCounts zeroCounts).1
      (detectLinesAdvanced zeroCounts zeroCounts).2 = [scenarioBRegion] := by
  have hm : medianCount zeroCounts zeroCounts = 0 := by decide
  have h1 : (detectLinesAdvanced zeroCounts zeroCounts).1 = borderOnly := by
    funext i j
    by_cases h : (i = 0 ∨ i = 9) ∧ j < 9
    · simp [detectLinesAdvanced, enforceBorderThickLines, classifyLines, hm,
        borderOnly, zeroCounts, h]
    · simp [detectLinesAdvanced, enforceBorderThickLines, classifyLines, hm,
        borderOnly, zeroCounts, h]
      omega
  have h2 : (detectLinesAdvanced zeroCounts zeroCounts).2 = borderOnly := by
    funext i j
    by_cases h : (i = 0 ∨ i = 9) ∧ j < 9
    · simp [detectLinesAdvanced, enforceBorderThickLines, classifyLines, hm,
        borderOnly, zeroCounts, h]
    · simp [detectLinesAdvanced, enforceBorderThickLines, classifyLines, hm,
        borderOnly, zeroCounts, h]
      omega
  rw [h1, h2]
  decide

open ImageProcessor App in
/-- C3 counterexample (Scenario B): the all-thin map reconstructs to one
region of 81 cells, yet the app's only gate before invoking the solver — the
duplicate-clue validation of `validateInitialGrid` — passes, so the solver
is invoked against the malformed partition. -/
theorem C3_counterexample :
    (constructRegionsFromThickLines
        (detectLinesAdvanced zeroCounts zeroCounts).1
        (detectLinesAdvanced zeroCounts zeroCounts).2).length = 1 ∧
    ((constructRegionsFromThickLines
        (detectLinesAdvanced zeroCounts zeroCounts).1
        (detectLinesAdvanced zeroCounts zeroCounts).2).getD 0 []).length = 81 ∧
    invokesSolver emptyGrid
      (some (constructRegionsFromThickLines
        (detectLinesAdvanced zeroCounts zeroCounts).1
        (detectLinesAdvanced zeroCounts zeroCounts).2)) = true := by
  rw [scenarioB_regions_eq]
  exact ⟨rfl, by decide, by decide⟩

open ImageProcessor App in
/-- C3 (amended): reconstruction does return the malformed partition
(1 region of 81 cells on Scenario B), but no MalformedRegions condition
exists downstream: `handleImageUpload` invokes the solver exactly when
`validateInitialGrid` finds no duplicate among the clues, regardless of the
partition's shape. -/
theorem C3_no_malformed_gate :
    (constructRegionsFromThickLines
        (detectLinesAdvanced zeroCounts zeroCounts).1
        (detectLinesAdvanced zeroCounts zeroCounts).2 = [scenarioBRegion]) ∧
    scenarioBRegion.length = 81 ∧
    (∀ (g : Grid) (rs : Option Regions),
       invokesSolver g rs = true ↔ validateInitialGrid g rs = []) ∧
    invokesSolver emptyGrid (some [scenarioBRegion]) = true := by
  refine ⟨scenarioB_regions_eq, by decide, ?_, by decide⟩
  intro g rs
  rw [invokesSolver, List.isEmpty_iff]

end NumberPlace

namespace NumberPlace

namespace SudokuSolver

lemma firstEmpty_eq_some {g : Grid} {p : Pos} (h : firstEmpty g = some p) :
    p.1 < 9 ∧ p.2 < 9 ∧ g p.1 p.2 = none := by
  have hm := List.mem_of_find?_eq_some h
  have hp := List.find?_some h
  rw [mem_cellsList] at hm
  exact ⟨hm.1, hm.2, Option.isNone_iff_eq_none.mp (by simpa using hp)⟩

lemma firstEmpty_eq_none {g : Grid} (h : firstEmpty g = none) :
    GridComplete g := by
  intro r hr c hc
  have := List.find?_eq_none.mp h (r, c) (mem_cellsList.mpr ⟨hr, hc⟩)
  simpa [Option.isNone_iff_eq_none] using this

lemma extendsGrid_refl (g : Grid) : ExtendsGrid g g := fun _ _ _ h => h

lemma extendsGrid_trans {g₁ g₂ g₃ : Grid} (h₁ : ExtendsGrid g₁ g₂)
    (h₂ : ExtendsGrid g₂ g₃) : ExtendsGrid g₁ g₃ :=
  fun r c v h => h₂ r c v (h₁ r c v h)

lemma extendsGrid_setCell {g : Grid} {r c : ℕ} (v : Cell)
    (hg : g r c = none) : ExtendsGrid g (setCell g r c v) := by
  intro r' c' w h
  rw [setCell]
  split
  · next heq => rw [heq.1, heq.2] at h; rw [hg] at h; exact absurd h (by simp)
  · exact h

lemma setCell_self (g : Grid) (r c : ℕ) (v : Cell) :
    setCell g r c v r c = v := by simp [setCell]

lemma setCell_other {g : Grid} {r c r' c' : ℕ} (v : Cell)
    (h : ¬(r' = r ∧ c' = c)) : setCell g r c v r' c' = g r' c' := by
  simp [setCell, h]

/-- The iteration counter never decreases through `tryNums`. -/
lemma tryNums_iter_le {rec : Grid → ℕ → Bool × Grid × ℕ}
    (hrec : ∀ g it, it ≤ (rec g it).2.2) (regions : Regions) (g : Grid)
    (row col : ℕ) :
    ∀ (nums : List ℕ) (iter : ℕ),
      iter ≤ (tryNums rec regions g iter row col nums).2.2 := by
  intro nums
  induction nums with
  | nil => intro iter; simp [tryNums]
  | cons num rest ih =>
    intro iter
    rw [tryNums]
    split
    · set res := rec (setCell g row col (some num)) iter with hres
      by_cases h1 : res.1
      · simpa [h1] using (hrec (setCell g row col (some num)) iter)
      · simp only [h1, if_false]
        exact le_trans (hrec _ _) (ih res.2.2)
    · exact ih iter

/-- The iteration counter never decreases through `solveSudoku`. -/
lemma solveSudoku_iter_le (maxIter : ℕ) (regions : Regions) :
    ∀ (fuel : ℕ) (g : Grid) (iter : ℕ),
      iter ≤ (solveSudoku maxIter regions fuel g iter).2.2 := by
  intro fuel
  induction fuel with
  | zero => intro g iter; simp [solveSudoku]
  | succ fuel ih =>
    intro g iter
    rw [solveSudoku]
    split
    · simp
    · split
      · simp
      · exact le_trans (Nat.le_succ iter)
          (tryNums_iter_le (fun g it => ih g it) regions g _ _ candidates _)

/-- Each invocation increments the counter at least once. -/
lemma solveSudoku_iter_lt (maxIter : ℕ) (regions : Regions) (fuel : ℕ)
    (g : Grid) (iter : ℕ) :
    iter < (solveSudoku maxIter regions (fuel + 1) g iter).2.2 := by
  rw [solveSudoku]
  split
  · simp
  · split
    · simp
    · exact lt_of_lt_of_le (Nat.lt_succ_self iter)
        (tryNums_iter_le (fun g it => solveSudoku_iter_le maxIter regions fuel g it)
          regions g _ _ candidates _)

end SudokuSolver

end NumberPlace

namespace NumberPlace

namespace SudokuSolver

lemma setCell_eq_of {g : Grid} {r c r' c' : ℕ} (v : Cell)
    (h : r' = r ∧ c' = c) : setCell g r c v r' c' = v := by
  simp [setCell, h]

/-- `findRegionContaining` on a valid partition: the containing region is
found and is the unique region containing the position. -/
lemma region_unique {regions : Regions} (hpart : ValidPartition regions)
    {r c : ℕ} (hr : r < 9) (hc : c < 9) :
    ∃ region, findRegionContaining regions r c = some region ∧
      (r, c) ∈ region ∧ region ∈ regions ∧
      ∀ reg' ∈ regions, (r, c) ∈ reg' → reg' = region := by
  obtain ⟨hlen, hregs, hcount⟩ := hpart
  have hcnt := hcount (r, c) (mem_cellsList.mpr ⟨hr, hc⟩)
  have hmem : (r, c) ∈ regions.flatten := by
    rw [← List.count_pos_iff]
    omega
  obtain ⟨reg₀, hreg₀, hmem₀⟩ := List.mem_flatten.mp hmem
  have hfind : (findRegionContaining regions r c).isSome := by
    rw [findRegionContaining, List.find?_isSome]
    exact ⟨reg₀, hreg₀, List.any_eq_true.mpr ⟨(r, c), hmem₀, by simp⟩⟩
  obtain ⟨region, hregion⟩ := Option.isSome_iff_exists.mp hfind
  have hregmem : region ∈ regions := List.mem_of_find?_eq_some hregion
  have hrc : (r, c) ∈ region := by
    have hpred := List.find?_some hregion
    rw [List.any_eq_true] at hpred
    obtain ⟨p, hpmem, hpp⟩ := hpred
    have hpeq : p = (r, c) := by
      have h12 : p.1 = r ∧ p.2 = c := by simpa using hpp
      exact Prod.ext h12.1 h12.2
    exact hpeq ▸ hpmem
  refine ⟨region, hregion, hrc, hregmem, ?_⟩
  intro reg' hreg' hrc'
  by_contra hne
  obtain ⟨s, t, hst⟩ := List.append_of_mem hregmem
  have hsplit : regions.flatten.count (r, c) =
      s.flatten.count (r, c) + region.count (r, c) +
        t.flatten.count (r, c) := by
    rw [hst]
    simp [List.count_append]
    omega
  have h2 : 1 ≤ region.count (r, c) := List.count_pos_iff.mpr hrc
  have h3 : reg' ∈ s ∨ reg' ∈ t := by
    have : reg' ∈ s ++ region :: t := hst ▸ hreg'
    rcases List.mem_append.mp this with h | h
    · exact Or.inl h
    · rcases List.mem_cons.mp h with h | h
      · exact absurd h hne
      · exact Or.inr h
  have h4 : 1 ≤ s.flatten.count (r, c) + t.flatten.count (r, c) := by
    rcases h3 with h | h
    · have : (r, c) ∈ s.flatten := List.mem_flatten.mpr ⟨reg', h, hrc'⟩
      have := List.count_pos_iff.mpr this
      omega
    · have : (r, c) ∈ t.flatten := List.mem_flatten.mpr ⟨reg', h, hrc'⟩
      have := List.count_pos_iff.mpr this
      omega
  omega

lemma rowHas_eq_false {g : Grid} {r num : ℕ} (h : rowHas g r num = false) :
    ∀ i < 9, g r i ≠ some num := by
  intro i hi
  rw [rowHas] at h
  have := List.any_eq_false.mp h i (List.mem_range.mpr hi)
  simpa using this

lemma colHas_eq_false {g : Grid} {c num : ℕ} (h : colHas g c num = false) :
    ∀ i < 9, g i c ≠ some num := by
  intro i hi
  rw [colHas] at h
  have := List.any_eq_false.mp h i (List.mem_range.mpr hi)
  simpa using this

lemma regionHas_eq_false {g : Grid} {region : Region} {num : ℕ}
    (h : regionHas g region num = false) :
    ∀ p ∈ region, g p.1 p.2 ≠ some num := by
  intro p hp
  rw [regionHas] at h
  have := List.any_eq_false.mp h p hp
  simpa using this

/-- Unpack a successful `isValidMove` on a valid partition. -/
lemma isValidMove_spec {g : Grid} {regions : Regions} {r c num : ℕ}
    (hpart : ValidPartition regions) (hr : r < 9) (hc : c < 9)
    (h : isValidMove g regions r c num = true) :
    (∀ i < 9, g r i ≠ some num) ∧ (∀ i < 9, g i c ≠ some num) ∧
    ∀ region ∈ regions, (r, c) ∈ region →
      ∀ p ∈ region, g p.1 p.2 ≠ some num := by
  obtain ⟨region, hfind, hrc, hregmem, huniq⟩ := region_unique hpart hr hc
  rw [isValidMove, hfind] at h
  simp only [Bool.and_eq_true, Bool.not_eq_true'] at h
  obtain ⟨⟨hrow, hcol⟩, hreg⟩ := h
  refine ⟨rowHas_eq_false hrow, colHas_eq_false hcol, ?_⟩
  intro reg' hreg' hrc' p hp
  rw [huniq reg' hreg' hrc'] at hp
  exact regionHas_eq_false hreg p hp

lemma valuesInRange_setCell {g : Grid} {r c num : ℕ}
    (hrange : ValuesInRange g) (h1 : 1 ≤ num) (h9 : num ≤ 9) :
    ValuesInRange (setCell g r c (some num)) := by
  intro r' hr' c' hc'
  rw [setCell]
  split
  · simpa using ⟨h1, h9⟩
  · exact hrange r' hr' c' hc'

/-- A legal assignment into an empty cell preserves consistency. -/
lemma consistent_setCell {g : Grid} {regions : Regions} {r c num : ℕ}
    (hpart : ValidPartition regions) (hcons : ConsistentGrid g regions)
    (hvalid : isValidMove g regions r c num = true) (hg : g r c = none)
    (hr : r < 9) (hc : c < 9) :
    ConsistentGrid (setCell g r c (some num)) regions := by
  obtain ⟨hrow, hcol, hreg⟩ := isValidMove_spec hpart hr hc hvalid
  obtain ⟨hcr, hcc, hcg⟩ := hcons
  refine ⟨?_, ?_, ?_⟩
  · intro r₀ hr₀ c₁ hc₁ c₂ hc₂ hne
    by_cases h1 : r₀ = r ∧ c₁ = c
    · right
      rw [setCell_eq_of _ h1, setCell_other _ (fun h2 => hne (h1.2.trans h2.2.symm))]
      have := hrow c₂ hc₂
      rw [← h1.1] at this
      exact fun heq => this heq.symm
    · rw [setCell_other _ h1]
      by_cases h2 : r₀ = r ∧ c₂ = c
      · rcases Option.eq_none_or_eq_some (g r₀ c₁) with hnone | ⟨v, hv⟩
        · exact Or.inl hnone
        · right
          rw [setCell_eq_of _ h2]
          have := hrow c₁ hc₁
          rw [← h2.1] at this
          rw [hv] at this ⊢
          exact this
      · rw [setCell_other _ h2]
        exact hcr r₀ hr₀ c₁ hc₁ c₂ hc₂ hne
  · intro c₀ hc₀ r₁ hr₁ r₂ hr₂ hne
    by_cases h1 : r₁ = r ∧ c₀ = c
    · right
      rw [setCell_eq_of _ h1, setCell_other _ (fun h2 => hne (h1.1.trans h2.1.symm))]
      have := hcol r₂ hr₂
      rw [← h1.2] at this
      exact fun heq => this heq.symm
    · rw [setCell_other _ h1]
      by_cases h2 : r₂ = r ∧ c₀ = c
      · rcases Option.eq_none_or_eq_some (g r₁ c₀) with hnone | ⟨v, hv⟩
        · exact Or.inl hnone
        · right
          rw [setCell_eq_of _ h2]
          have := hcol r₁ hr₁
          rw [← h2.2] at this
          rw [hv] at this ⊢
          exact this
      · rw [setCell_other _ h2]
        exact hcc c₀ hc₀ r₁ hr₁ r₂ hr₂ hne
  · intro region hregion p hp q hq hne
    by_cases h1 : p.1 = r ∧ p.2 = c
    · have hpeq : p = (r, c) := Prod.ext h1.1 h1.2
      right
      rw [setCell_eq_of _ h1,
        setCell_other _ (fun h2 => hne (by rw [hpeq]; exact (Prod.ext h2.1 h2.2).symm))]
      have := hreg region hregion (hpeq ▸ hp) q hq
      exact fun heq => this heq.symm
    · rw [setCell_other _ h1]
      by_cases h2 : q.1 = r ∧ q.2 = c
      · have hqeq : q = (r, c) := Prod.ext h2.1 h2.2
        rcases Option.eq_none_or_eq_some (g p.1 p.2) with hnone | ⟨v, hv⟩
        · exact Or.inl hnone
        · right
          rw [setCell_eq_of _ h2]
          have := hreg region hregion (hqeq ▸ hq) p hp
          rw [hv] at this ⊢
          exact this
      · rw [setCell_other _ h2]
        exact hcg region hregion p hp q hq hne

end SudokuSolver

end NumberPlace

namespace NumberPlace

namespace SudokuSolver

lemma tryNums_success_spec {regions : Regions}
    (hpart : ValidPartition regions)
    {rec : Grid → ℕ → Bool × Grid × ℕ}
    (hrec : ∀ g it, SuccessSpec regions g (rec g it))
    {g : Grid} {row col : ℕ} (hrow9 : row < 9) (hcol9 : col < 9)
    (hg : g row col = none) :
    ∀ (nums : List ℕ), (∀ n ∈ nums, 1 ≤ n ∧ n ≤ 9) →
      ∀ (iter : ℕ), SuccessSpec regions g (tryNums rec regions g iter row col nums) := by
  intro nums
  induction nums with
  | nil => intro _ iter hsucc; simp [tryNums] at hsucc
  | cons num rest ih =>
    intro hnums iter hsucc
    rw [tryNums] at hsucc ⊢
    by_cases hv : isValidMove g regions row col num
    · rw [if_pos hv] at hsucc ⊢
      set res := rec (setCell g row col (some num)) iter with hres
      by_cases h1 : res.1
      · rw [if_pos h1] at hsucc ⊢
        obtain ⟨hcomp, hext, hpres⟩ := hrec (setCell g row col (some num)) iter h1
        refine ⟨hcomp, extendsGrid_trans (extendsGrid_setCell _ hg) hext, ?_⟩
        intro hcons hrange
        exact hpres (consistent_setCell hpart hcons hv hg hrow9 hcol9)
          (valuesInRange_setCell hrange (hnums num (by simp)).1 (hnums num (by simp)).2)
      · rw [if_neg h1] at hsucc ⊢
        exact ih (fun n hn => hnums n (by simp [hn])) res.2.2 hsucc
    · rw [if_neg hv] at hsucc ⊢
      exact ih (fun n hn => hnums n (by simp [hn])) iter hsucc

/-- A successful `solveSudoku` returns a complete extension of its input
grid, preserving consistency and value range. -/
lemma solveSudoku_success_spec (maxIter : ℕ) {regions : Regions}
    (hpart : ValidPartition regions) :
    ∀ (fuel : ℕ) (g : Grid) (iter : ℕ),
      SuccessSpec regions g (solveSudoku maxIter regions fuel g iter) := by
  intro fuel
  induction fuel with
  | zero => intro g iter hsucc; simp [solveSudoku] at hsucc
  | succ fuel ih =>
    intro g iter hsucc
    rw [solveSudoku] at hsucc ⊢
    by_cases habort : iter + 1 > maxIter
    · simp only [habort, if_true] at hsucc
      exact absurd hsucc (by simp)
    · simp only [habort, if_false] at hsucc ⊢
      cases hfe : firstEmpty g with
      | none =>
        refine ⟨firstEmpty_eq_none hfe, extendsGrid_refl g, ?_⟩
        intro hcons hrange
        exact ⟨hcons, hrange⟩
      | some p =>
        rw [hfe] at hsucc
        obtain ⟨hp1, hp2, hpe⟩ := firstEmpty_eq_some hfe
        exact tryNums_success_spec hpart (fun g it => ih g it) hp1 hp2 hpe
          candidates (by decide) (iter + 1) hsucc

lemma solveWith_eq_some {maxIter : ℕ} {g g' : Grid} {regions : Regions}
    (h : solveWith maxIter g regions = some g') :
    (solveSudoku maxIter regions 82 g 0).1 = true ∧
    (solveSudoku maxIter regions 82 g 0).2.1 = g' := by
  rw [solveWith] at h
  by_cases h1 : (solveSudoku maxIter regions 82 g 0).1
  · rw [if_pos h1] at h
    exact ⟨h1, by injection h⟩
  · rw [if_neg h1] at h
    exact absurd h (by simp)

end SudokuSolver

end NumberPlace

namespace NumberPlace

namespace SudokuSolver

/-- A successful search only extends the starting grid (no hypotheses on
the regions or the grid are needed). -/
lemma tryNums_extends {regions : Regions}
    {rec : Grid → ℕ → Bool × Grid × ℕ}
    (hrec : ∀ g it, (rec g it).1 = true → ExtendsGrid g (rec g it).2.1)
    {g : Grid} {row col : ℕ} (hg : g row col = none) :
    ∀ (nums : List ℕ) (iter : ℕ),
      (tryNums rec regions g iter row col nums).1 = true →
      ExtendsGrid g (tryNums rec regions g iter row col nums).2.1 := by
  intro nums
  induction nums with
  | nil => intro iter hsucc; simp [tryNums] at hsucc
  | cons num rest ih =>
    intro iter hsucc
    rw [tryNums] at hsucc ⊢
    by_cases hv : isValidMove g regions row col num
    · rw [if_pos hv] at hsucc ⊢
      set res := rec (setCell g row col (some num)) iter with hres
      by_cases h1 : res.1
      · rw [if_pos h1] at hsucc ⊢
        exact extendsGrid_trans (extendsGrid_setCell _ hg)
          (hrec (setCell g row col (some num)) iter h1)
      · rw [if_neg h1] at hsucc ⊢
        exact ih res.2.2 hsucc
    · rw [if_neg hv] at hsucc ⊢
      exact ih iter hsucc

/-- A successful `solveSudoku` extends its input grid. -/
lemma solveSudoku_extends (maxIter : ℕ) (regions : Regions) :
    ∀ (fuel : ℕ) (g : Grid) (iter : ℕ),
      (solveSudoku maxIter regions fuel g iter).1 = true →
      ExtendsGrid g (solveSudoku maxIter regions fuel g iter).2.1 := by
  intro fuel
  induction fuel with
  | zero => intro g iter hsucc; simp [solveSudoku] at hsucc
  | succ fuel ih =>
    intro g iter hsucc
    rw [solveSudoku] at hsucc ⊢
    by_cases habort : iter + 1 > maxIter
    · simp only [habort, if_true] at hsucc
      exact absurd hsucc (by simp)
    · simp only [habort, if_false] at hsucc ⊢
      cases hfe : firstEmpty g with
      | none => exact extendsGrid_refl g
      | some p =>
        rw [hfe] at hsucc
        obtain ⟨hp1, hp2, hpe⟩ := firstEmpty_eq_some hfe
        exact tryNums_extends (fun g it => ih g it) hpe candidates (iter + 1) hsucc

end SudokuSolver

end NumberPlace

namespace NumberPlace

/-- Nine values in 1..9, pairwise distinct, hit every digit exactly once. -/
lemma exists_unique_digit {α : Type} [DecidableEq α] (S : Finset α)
    (f : α → ℕ) (hcard : S.card = 9)
    (hmaps : ∀ a ∈ S, f a ∈ Finset.Icc 1 9) (hinj : Set.InjOn f S)
    (d : ℕ) (hd : d ∈ Finset.Icc 1 9) : ∃! a, a ∈ S ∧ f a = d := by
  have himage : S.image f = Finset.Icc 1 9 := by
    apply Finset.eq_of_subset_of_card_le
    · intro x hx
      obtain ⟨a, ha, rfl⟩ := Finset.mem_image.mp hx
      exact hmaps a ha
    · rw [Finset.card_image_of_injOn hinj, hcard]
      simp
  obtain ⟨a, ha, hfa⟩ := Finset.mem_image.mp (himage ▸ hd)
  refine ⟨a, ⟨ha, hfa⟩, ?_⟩
  rintro b ⟨hb, hfb⟩
  exact hinj hb ha (hfb.trans hfa.symm)

lemma getD_of_complete {g : Grid} {r c : ℕ} (h : g r c ≠ none) :
    g r c = some ((g r c).getD 1) := by
  cases hg : g r c with
  | none => exact absurd hg h
  | some v => simp

namespace SudokuSolver

lemma nodup_of_count_le_one {l : List Pos} (h : ∀ p, l.count p ≤ 1) :
    l.Nodup := by
  induction l with
  | nil => simp
  | cons a t ih =>
    rw [List.nodup_cons]
    constructor
    · intro hmem
      have h1 := h a
      rw [List.count_cons_self] at h1
      have h2 := List.count_pos_iff.mpr hmem
      omega
    · refine ih fun p => ?_
      have h1 := h p
      rw [List.count_cons] at h1
      split at h1 <;> omega

lemma partition_region_nodup {regions : Regions}
    (hpart : ValidPartition regions) {region : Region}
    (hreg : region ∈ regions) : region.Nodup := by
  obtain ⟨hlen, hregs, hcount⟩ := hpart
  refine nodup_of_count_le_one fun p => ?_
  by_cases hp : p ∈ region
  · have hrange := (hregs region hreg).2 p hp
    have hcnt := hcount p (mem_cellsList.mpr hrange)
    obtain ⟨s, t, hst⟩ := List.append_of_mem hreg
    have : regions.flatten.count p =
        s.flatten.count p + region.count p + t.flatten.count p := by
      rw [hst]
      simp [List.count_append]
      omega
    omega
  · rw [List.count_eq_zero_of_not_mem hp]
    omega

/-- The complete, consistent, in-range grids are exactly the solved grids:
every row, column and region holds each digit 1..9 exactly once. -/
lemma complete_consistent_solved {g : Grid} {regions : Regions}
    (hpart : ValidPartition regions) (hcomp : GridComplete g)
    (hrange : ValuesInRange g) (hcons : ConsistentGrid g regions) :
    (∀ r < 9, ∀ d, 1 ≤ d → d ≤ 9 → ∃! c, c < 9 ∧ g r c = some d) ∧
    (∀ c < 9, ∀ d, 1 ≤ d → d ≤ 9 → ∃! r, r < 9 ∧ g r c = some d) ∧
    (∀ region ∈ regions, ∀ d, 1 ≤ d → d ≤ 9 →
      ∃! p, p ∈ region ∧ g p.1 p.2 = some d) := by
  obtain ⟨hcr, hcc, hcg⟩ := hcons
  refine ⟨?_, ?_, ?_⟩
  · intro r hr d h1 h9
    have h := exists_unique_digit (Finset.range 9) (fun c => (g r c).getD 1)
      (by simp) ?_ ?_ d (by simp [h1, h9])
    · obtain ⟨c, ⟨hc, hfc⟩, huniq⟩ := h
      rw [Finset.mem_range] at hc
      have hfc' : (g r c).getD 1 = d := hfc
      refine ⟨c, ⟨hc, by rw [getD_of_complete (hcomp r hr c hc), hfc']⟩, ?_⟩
      rintro c' ⟨hc', hg'⟩
      exact huniq c' ⟨Finset.mem_range.mpr hc',
        show (g r c').getD 1 = d by rw [hg']; rfl⟩
    · intro c hc
      rw [Finset.mem_range] at hc
      simpa using hrange r hr c hc
    · intro c₁ h₁ c₂ h₂ hf
      simp only [Finset.coe_range, Set.mem_Iio] at h₁ h₂
      have hf' : (g r c₁).getD 1 = (g r c₂).getD 1 := hf
      by_contra hne
      rcases hcr r hr c₁ h₁ c₂ h₂ hne with hnone | hdiff
      · exact hcomp r hr c₁ h₁ hnone
      · exact hdiff (by
          rw [getD_of_complete (hcomp r hr c₁ h₁),
            getD_of_complete (hcomp r hr c₂ h₂), hf'])
  · intro c hc d h1 h9
    have h := exists_unique_digit (Finset.range 9) (fun r => (g r c).getD 1)
      (by simp) ?_ ?_ d (by simp [h1, h9])
    · obtain ⟨r, ⟨hr, hfr⟩, huniq⟩ := h
      rw [Finset.mem_range] at hr
      have hfr' : (g r c).getD 1 = d := hfr
      refine ⟨r, ⟨hr, by rw [getD_of_complete (hcomp r hr c hc), hfr']⟩, ?_⟩
      rintro r' ⟨hr', hg'⟩
      exact huniq r' ⟨Finset.mem_range.mpr hr',
        show (g r' c).getD 1 = d by rw [hg']; rfl⟩
    · intro r hr
      rw [Finset.mem_range] at hr
      simpa using hrange r hr c hc
    · intro r₁ h₁ r₂ h₂ hf
      simp only [Finset.coe_range, Set.mem_Iio] at h₁ h₂
      have hf' : (g r₁ c).getD 1 = (g r₂ c).getD 1 := hf
      by_contra hne
      rcases hcc c hc r₁ h₁ r₂ h₂ hne with hnone | hdiff
      · exact hcomp r₁ h₁ c hc hnone
      · exact hdiff (by
          rw [getD_of_complete (hcomp r₁ h₁ c hc),
            getD_of_complete (hcomp r₂ h₂ c hc), hf'])
  · intro region hregion d h1 h9
    have hnodup := partition_region_nodup hpart hregion
    have hlen9 := (hpart.2.1 region hregion).1
    have hrangeP := (hpart.2.1 region hregion).2
    have h := exists_unique_digit region.toFinset
      (fun p => (g p.1 p.2).getD 1)
      (by rw [List.toFinset_card_of_nodup hnodup, hlen9]) ?_ ?_ d
      (by simp [h1, h9])
    · obtain ⟨p, ⟨hp, hfp⟩, huniq⟩ := h
      rw [List.mem_toFinset] at hp
      have hpr := hrangeP p hp
      have hfp' : (g p.1 p.2).getD 1 = d := hfp
      refine ⟨p, ⟨hp, by
        rw [getD_of_complete (hcomp p.1 hpr.1 p.2 hpr.2), hfp']⟩, ?_⟩
      rintro q ⟨hq, hg'⟩
      exact huniq q ⟨List.mem_toFinset.mpr hq,
        show (g q.1 q.2).getD 1 = d by rw [hg']; rfl⟩
    · intro p hp
      rw [List.mem_toFinset] at hp
      have hpr := hrangeP p hp
      simpa using hrange p.1 hpr.1 p.2 hpr.2
    · intro p hp q hq hf
      simp only [List.coe_toFinset, Set.mem_setOf_eq] at hp hq
      have hf' : (g p.1 p.2).getD 1 = (g q.1 q.2).getD 1 := hf
      by_contra hne
      have hpr := hrangeP p hp
      have hqr := hrangeP q hq
      rcases hcg region hregion p hp q hq hne with hnone | hdiff
      · exact hcomp p.1 hpr.1 p.2 hpr.2 hnone
      · exact hdiff (by
          rw [getD_of_complete (hcomp p.1 hpr.1 p.2 hpr.2),
            getD_of_complete (hcomp q.1 hqr.1 q.2 hqr.2), hf'])

end SudokuSolver

end NumberPlace

namespace NumberPlace

open SudokuSolver in
/-- C1 counterexample: the claim quantifies over every input grid, but the
solver never re-validates given clues.  The all-1 grid is complete, so
`solve` returns it unchanged, and row 0 contains no digit 2. -/
theorem C1_counterexample :
    ValidPartition createStandardRegions ∧
    solve allOnes createStandardRegions = some allOnes ∧
    ¬ ∃ c, c < 9 ∧ allOnes 0 c = some 2 :=
  ⟨by decide, rfl, by decide⟩

open SudokuSolver in
/-- C1 (amended): for an input grid whose filled cells are digits 1..9 and
already satisfy the uniqueness constraints (§4.4 precondition), every grid
returned by `solve` is complete and every row, column and region holds each
digit 1..9 exactly once. -/
theorem C1_solver_sound (g : Grid) (regions : Regions) (g' : Grid)
    (hpart : ValidPartition regions) (hrange : ValuesInRange g)
    (hcons : ConsistentGrid g regions)
    (h : solve g regions = some g') :
    GridComplete g' ∧
    (∀ r < 9, ∀ d, 1 ≤ d → d ≤ 9 → ∃! c, c < 9 ∧ g' r c = some d) ∧
    (∀ c < 9, ∀ d, 1 ≤ d → d ≤ 9 → ∃! r, r < 9 ∧ g' r c = some d) ∧
    (∀ region ∈ regions, ∀ d, 1 ≤ d → d ≤ 9 →
      ∃! p, p ∈ region ∧ g' p.1 p.2 = some d) := by
  obtain ⟨hres, hg'⟩ := solveWith_eq_some h
  obtain ⟨hcomp, _, hpres⟩ :=
    solveSudoku_success_spec 1000000 hpart 82 g 0 hres
  obtain ⟨hcons', hrange'⟩ := hpres hcons hrange
  rw [hg'] at hcomp hcons' hrange'
  exact ⟨hcomp, complete_consistent_solved hpart hcomp hrange' hcons'⟩

open SudokuSolver in
/-- Witness for C1: the near-complete grid `gNearly` with the canonical 3×3
regions. -/
theorem C1_witness :
    ValidPartition createStandardRegions ∧ ValuesInRange gNearly ∧
    ConsistentGrid gNearly createStandardRegions ∧
    ∃ g', solve gNearly createStandardRegions = some g' ∧
      (GridComplete g' ∧
       (∀ r < 9, ∀ d, 1 ≤ d → d ≤ 9 → ∃! c, c < 9 ∧ g' r c = some d) ∧
       (∀ c < 9, ∀ d, 1 ≤ d → d ≤ 9 → ∃! r, r < 9 ∧ g' r c = some d) ∧
       (∀ region ∈ createStandardRegions, ∀ d, 1 ≤ d → d ≤ 9 →
         ∃! p, p ∈ region ∧ g' p.1 p.2 = some d)) := by
  have hs : (solve gNearly createStandardRegions).isSome = true := rfl
  exact ⟨by decide, by decide, by decide,
    (solve gNearly createStandardRegions).get hs, (Option.some_get hs).symm,
    C1_solver_sound gNearly createStandardRegions _ (by decide) (by decide)
      (by decide) (Option.some_get hs).symm⟩

open SudokuSolver in
/-- C4: any solved grid agrees with the input grid at every cell that was
filled in the input; only empty cells are ever assigned. -/
theorem C4_clues_preserved (g : Grid) (regions : Regions) (g' : Grid)
    (h : solve g regions = some g') : ExtendsGrid g g' := by
  obtain ⟨hres, hg'⟩ := solveWith_eq_some h
  have hspec := solveSudoku_extends 1000000 regions 82 g 0 hres
  rwa [hg'] at hspec

open SudokuSolver in
/-- Witness for C4: the clue 2 at (0,1) of `gNearly` survives solving. -/
theorem C4_witness :
    gNearly 0 1 = some 2 ∧
    ∃ g', solve gNearly createStandardRegions = some g' ∧ g' 0 1 = some 2 := by
  have hs : (solve gNearly createStandardRegions).isSome = true := rfl
  exact ⟨rfl, (solve gNearly createStandardRegions).get hs,
    (Option.some_get hs).symm,
    C4_clues_preserved gNearly createStandardRegions _
      (Option.some_get hs).symm 0 1 2 rfl⟩

end NumberPlace

namespace NumberPlace

namespace SudokuSolver

/-- A run whose final counter stayed within the smaller budget `m` never
consulted the budget, so it is identical under any larger budget `m'`. -/
lemma tryNums_budget_oblivious {regions : Regions}
    {rec rec' : Grid → ℕ → Bool × Grid × ℕ}
    (hrecle : ∀ g it, it ≤ (rec g it).2.2) {m : ℕ}
    (hobl : ∀ g it, (rec g it).2.2 ≤ m → rec' g it = rec g it)
    (g : Grid) (row col : ℕ) :
    ∀ (nums : List ℕ) (iter : ℕ),
      (tryNums rec regions g iter row col nums).2.2 ≤ m →
      tryNums rec' regions g iter row col nums =
        tryNums rec regions g iter row col nums := by
  intro nums
  induction nums with
  | nil => intro iter _; rfl
  | cons num rest ih =>
    intro iter hle
    rw [tryNums] at hle ⊢
    conv_rhs => rw [tryNums]
    by_cases hv : isValidMove g regions row col num
    · rw [if_pos hv] at hle ⊢
      rw [if_pos hv]
      set res := rec (setCell g row col (some num)) iter with hres
      by_cases h1 : res.1
      · rw [if_pos h1] at hle
        have hresle : res.2.2 ≤ m := hle
        rw [hobl _ _ hresle, ← hres, if_pos h1, if_pos h1]
      · rw [if_neg h1] at hle
        have htail := tryNums_iter_le hrecle regions g row col rest res.2.2
        have hresle : res.2.2 ≤ m := le_trans htail hle
        rw [hobl _ _ hresle, ← hres, if_neg h1, if_neg h1]
        exact ih res.2.2 hle
    · rw [if_neg hv] at hle ⊢
      rw [if_neg hv]
      exact ih iter hle

/-- Budget irrelevance: if a run's final counter stayed within budget `m`,
the run is unchanged under any budget `m' ≥ m`. -/
lemma solveSudoku_budget_oblivious {m m' : ℕ} (hmm : m ≤ m')
    (regions : Regions) :
    ∀ (fuel : ℕ) (g : Grid) (iter : ℕ),
      (solveSudoku m regions fuel g iter).2.2 ≤ m →
      solveSudoku m' regions fuel g iter = solveSudoku m regions fuel g iter := by
  intro fuel
  induction fuel with
  | zero => intro g iter _; rfl
  | succ fuel ih =>
    intro g iter hle
    rw [solveSudoku] at hle ⊢
    conv_rhs => rw [solveSudoku]
    by_cases habort : iter + 1 > m
    · rw [if_pos habort] at hle
      simp at hle
      omega
    · rw [if_neg habort] at hle ⊢
      have habort' : ¬ iter + 1 > m' := by omega
      rw [if_neg habort']
      cases hfe : firstEmpty g with
      | none => rfl
      | some p =>
        rw [hfe] at hle
        exact tryNums_budget_oblivious (fun g it => solveSudoku_iter_le m regions fuel g it)
          (fun g it hit => ih g it hit) g p.1 p.2 candidates (iter + 1) hle

/-- A successful run's final counter is within the budget. -/
lemma tryNums_success_le {regions : Regions} {m : ℕ}
    {rec : Grid → ℕ → Bool × Grid × ℕ}
    (hrec : ∀ g it, (rec g it).1 = true → (rec g it).2.2 ≤ m)
    (g : Grid) (row col : ℕ) :
    ∀ (nums : List ℕ) (iter : ℕ),
      (tryNums rec regions g iter row col nums).1 = true →
      (tryNums rec regions g iter row col nums).2.2 ≤ m := by
  intro nums
  induction nums with
  | nil => intro iter h; simp [tryNums] at h
  | cons num rest ih =>
    intro iter h
    rw [tryNums] at h ⊢
    by_cases hv : isValidMove g regions row col num
    · rw [if_pos hv] at h ⊢
      set res := rec (setCell g row col (some num)) iter with hres
      by_cases h1 : res.1
      · rw [if_pos h1] at h ⊢
        exact hrec _ _ h1
      · rw [if_neg h1] at h ⊢
        exact ih res.2.2 h
    · rw [if_neg hv] at h ⊢
      exact ih iter h

/-- A successful `solveSudoku` run's final counter is within the budget. -/
lemma solveSudoku_success_le (m : ℕ) (regions : Regions) :
    ∀ (fuel : ℕ) (g : Grid) (iter : ℕ),
      (solveSudoku m regions fuel g iter).1 = true →
      (solveSudoku m regions fuel g iter).2.2 ≤ m := by
  intro fuel
  induction fuel with
  | zero => intro g iter h; simp [solveSudoku] at h
  | succ fuel ih =>
    intro g iter h
    rw [solveSudoku] at h ⊢
    by_cases habort : iter + 1 > m
    · rw [if_pos habort] at h
      exact absurd h (by simp)
    · rw [if_neg habort] at h ⊢
      cases hfe : firstEmpty g with
      | none =>
        show iter + 1 ≤ m
        omega
      | some p =>
        rw [hfe] at h
        exact tryNums_success_le (fun g it hit => ih g it hit) g p.1 p.2
          candidates (iter + 1) h

end SudokuSolver

open SudokuSolver in
/-- C9: outcome monotonicity in the step budget.  A success under budget
`b'` persists unchanged under any `b ≥ b'`; hence lowering the budget never
turns a failure into a success, and a success lost by lowering the budget
fails only because the counter exceeded the lower budget. -/
theorem C9_budget_monotone (g : Grid) (regions : Regions) (b b' : ℕ)
    (hb : b' ≤ b) :
    (solveWith b g regions = none → solveWith b' g regions = none) ∧
    (∀ g', solveWith b g regions = some g' →
       solveWith b' g regions = some g' ∨
       (solveWith b' g regions = none ∧
        b' < (solveSudoku b' regions 82 g 0).2.2)) := by
  constructor
  · intro hnone
    by_contra hne
    obtain ⟨g₀, hg₀⟩ := Option.ne_none_iff_exists'.mp hne
    obtain ⟨hres, _⟩ := solveWith_eq_some hg₀
    have hle := solveSudoku_success_le b' regions 82 g 0 hres
    have heq := solveSudoku_budget_oblivious hb regions 82 g 0 hle
    rw [solveWith, heq, hres] at hnone
    simp at hnone
  · intro g' hsome
    by_cases h2 : (solveSudoku b' regions 82 g 0).2.2 ≤ b'
    · left
      have heq := solveSudoku_budget_oblivious hb regions 82 g 0 h2
      rw [solveWith] at hsome
      rw [heq] at hsome
      rw [solveWith]
      exact hsome
    · right
      have hfail : (solveSudoku b' regions 82 g 0).1 = false := by
        by_contra h1
        rw [Bool.not_eq_false] at h1
        exact h2 (solveSudoku_success_le b' regions 82 g 0 h1)
      refine ⟨?_, by omega⟩
      rw [solveWith, hfail]
      simp

open SudokuSolver in
/-- Witness for C9 at budgets 10 ≥ 9 on the solvable grid `gNearly`. -/
theorem C9_witness :
    9 ≤ 10 ∧
    ∃ g', solveWith 10 gNearly createStandardRegions = some g' ∧
      (solveWith 9 gNearly createStandardRegions = some g' ∨
       (solveWith 9 gNearly createStandardRegions = none ∧
        9 < (solveSudoku 9 createStandardRegions 82 gNearly 0).2.2)) := by
  have hs : (solveWith 10 gNearly createStandardRegions).isSome = true := rfl
  exact ⟨by decide, (solveWith 10 gNearly createStandardRegions).get hs,
    (Option.some_get hs).symm,
    (C9_budget_monotone gNearly createStandardRegions 10 9 (by decide)).2 _
      (Option.some_get hs).symm⟩

open SudokuSolver in
/-- C2 counterexample: both failure modes return the same value.  With the
counter at the 1,000,000 budget the next invocation aborts and reports the
same `false`/`null` as the genuine search-space exhaustion on `gUnsat`
(whose run finishes with counter 1 ≤ 1,000,000); the solvable `gNearly`
shows the abort is due to the budget, not the grid. -/
theorem C2_counterexample :
    (solveSudoku 1000000 createStandardRegions 82 gNearly 1000000).1 = false ∧
    (solveSudoku 1000000 createStandardRegions 82 gNearly 1000000).2.2 =
      1000001 ∧
    (solve gNearly createStandardRegions).isSome = true ∧
    solveSudoku 1000000 createStandardRegions 82 gUnsat 0 =
      (false, gUnsat, 1) ∧
    solve gUnsat createStandardRegions = none ∧
    (solveSudoku 1000000 createStandardRegions 82 gNearly 1000000).1 =
      (solveSudoku 1000000 createStandardRegions 82 gUnsat 0).1 :=
  ⟨rfl, rfl, rfl, rfl, rfl, rfl⟩

open SudokuSolver in
/-- C2 (amended): the counter increments once per invocation and any
invocation beyond the 1,000,000 budget fails immediately, but the failure
surfaces as the same `null` as an exhausted search: `solve`'s result does
not distinguish the two failure modes. -/
theorem C2_budget_reported_as_null (g : Grid) (regions : Regions) :
    (∀ fuel iter, iter + 1 > 1000000 →
      solveSudoku 1000000 regions (fuel + 1) g iter = (false, g, iter + 1)) ∧
    (∀ fuel iter, iter < (solveSudoku 1000000 regions (fuel + 1) g iter).2.2) ∧
    (solve g regions = none ↔
      (solveSudoku 1000000 regions 82 g 0).1 = false) := by
  refine ⟨?_, ?_, ?_⟩
  · intro fuel iter h
    rw [solveSudoku, if_pos h]
  · intro fuel iter
    exact solveSudoku_iter_lt 1000000 regions fuel g iter
  · rw [solve, solveWith]
    by_cases h1 : (solveSudoku 1000000 regions 82 g 0).1
    · rw [if_pos h1]
      simp [h1]
    · rw [if_neg h1]
      simp [h1]

open SudokuSolver in
/-- Witness for C2 (amended) at counter value 1,000,000. -/
theorem C2_witness :
    solveSudoku 1000000 createStandardRegions (0 + 1) allOnes 1000000 =
      (false, allOnes, 1000000 + 1) :=
  (C2_budget_reported_as_null allOnes createStandardRegions).1 0 1000000
    (by decide)

end NumberPlace

namespace NumberPlace

namespace ImageProcessor

lemma setVisited_eq (v : ℕ → Bool) (n x : ℕ) :
    setVisited v n x = if x = n then true else v x := rfl

lemma foldl_setVisited_eq (L : List ℕ) (v : ℕ → Bool) (x : ℕ) :
    (L.foldl setVisited v) x = (v x || decide (x ∈ L)) := by
  induction L generalizing v with
  | nil => simp
  | cons a t ih =>
    simp only [List.foldl_cons, ih, List.mem_cons, setVisited_eq]
    by_cases hx : x = a <;> simp [hx]

lemma unvisitedCount_le (v : ℕ → Bool) : unvisitedCount v ≤ 81 := by
  calc unvisitedCount v ≤ (Finset.range 81).card := Finset.card_filter_le _ _
  _ = 81 := by simp

lemma unvisitedCount_setVisited {v : ℕ → Bool} {n : ℕ} (hn : n < 81)
    (hv : v n = false) :
    unvisitedCount (setVisited v n) + 1 = unvisitedCount v := by
  have hmem : n ∈ (Finset.range 81).filter (fun x => v x = false) := by
    simp [hn, hv]
  have : (Finset.range 81).filter (fun x => setVisited v n x = false) =
      ((Finset.range 81).filter fun x => v x = false).erase n := by
    ext x
    simp only [Finset.mem_filter, Finset.mem_erase, Finset.mem_range,
      setVisited_eq]
    constructor
    · intro ⟨h81, hx⟩
      by_cases hxn : x = n
      · rw [if_pos hxn] at hx; exact absurd hx (by simp)
      · rw [if_neg hxn] at hx; exact ⟨hxn, h81, hx⟩
    · intro ⟨hxn, h81, hx⟩
      exact ⟨h81, by rw [if_neg hxn]; exact hx⟩
  rw [unvisitedCount, this, Finset.card_erase_of_mem hmem]
  have : 0 < unvisitedCount v := Finset.card_pos.mpr ⟨n, hmem⟩
  unfold unvisitedCount at *
  omega

lemma unvisitedCount_foldl {L : List ℕ} {v : ℕ → Bool}
    (h81 : ∀ x ∈ L, x < 81) (hunv : ∀ x ∈ L, v x = false)
    (hnd : L.Nodup) :
    unvisitedCount (L.foldl setVisited v) + L.length = unvisitedCount v := by
  induction L generalizing v with
  | nil => simp
  | cons a t ih =>
    simp only [List.foldl_cons, List.length_cons]
    rw [List.nodup_cons] at hnd
    have step := unvisitedCount_setVisited (h81 a (by simp))
      (hunv a (by simp))
    have hrec : unvisitedCount (t.foldl setVisited (setVisited v a)) +
        t.length = unvisitedCount (setVisited v a) :=
      ih (fun x hx => h81 x (by simp [hx]))
        (fun x hx => by
          rw [setVisited_eq, if_neg (fun hxa => hnd.1 (by rw [← hxa]; exact hx))]
          exact hunv x (by simp [hx]))
        hnd.2
    omega

end ImageProcessor

end NumberPlace

namespace NumberPlace

namespace ImageProcessor

/-- Full specification of the BFS inner loop, by induction on the fuel.
`B` is the set of cells already visited before this component's BFS began
(closed under the connection relation), `D` the cells already dequeued into
the region, `s` the start cell.  With enough fuel the BFS empties its queue,
having dequeued — exactly once each — the cells reachable from `s`. -/
lemma bfs_spec {conn : ℕ → ℕ → Bool}
    (hbound : ∀ a b, conn a b = true → a < 81 ∧ b < 81)
    (s : ℕ) (B : ℕ → Bool) :
    ∀ (fuel : ℕ) (queue D : List ℕ) (visited : ℕ → Bool),
      queue.length + unvisitedCount visited ≤ fuel →
      queue.Nodup → D.Nodup →
      (∀ x ∈ D, x ∉ queue) →
      (∀ x ∈ D, x < 81) → (∀ x ∈ queue, x < 81) →
      (∀ x, visited x = true ↔ (B x = true ∨ x ∈ D ∨ x ∈ queue)) →
      (∀ x, B x = true → x ∉ D ∧ x ∉ queue) →
      (∀ x, x ∈ D ∨ x ∈ queue → Reach conn s x) →
      (∀ x ∈ D, ∀ y, conn x y = true → visited y = true) →
      ∃ D' : List ℕ,
        (bfs conn fuel queue visited (D.map cellOf)).1 = D'.map cellOf ∧
        D'.Nodup ∧
        (∀ x, x ∈ D ∨ x ∈ queue → x ∈ D') ∧
        (∀ x ∈ D', x < 81) ∧
        (∀ x ∈ D', Reach conn s x) ∧
        (∀ x, B x = true → x ∉ D') ∧
        (∀ x, (bfs conn fuel queue visited (D.map cellOf)).2 x = true ↔
          (B x = true ∨ x ∈ D')) ∧
        (∀ x ∈ D', ∀ y, conn x y = true →
          (bfs conn fuel queue visited (D.map cellOf)).2 y = true) := by
  intro fuel
  induction fuel with
  | zero =>
    intro queue D visited hfuel _ hDnd _ hD81 _ hvis hBdisj hreach hDcl
    have hq : queue = [] := List.length_eq_zero.mp (by omega)
    subst hq
    refine ⟨D, rfl, hDnd, ?_, hD81, fun x hx => hreach x (Or.inl hx), ?_, ?_, hDcl⟩
    · intro x hx
      rcases hx with hx | hx
      · exact hx
      · simp at hx
    · intro x hB
      exact (hBdisj x hB).1
    · intro x
      show visited x = true ↔ _
      rw [hvis x]
      simp
  | succ fuel ih =>
    intro queue D visited hfuel hqnd hDnd hDq hD81 hq81 hvis hBdisj hreach hDcl
    cases queue with
    | nil =>
      refine ⟨D, rfl, hDnd, ?_, hD81, fun x hx => hreach x (Or.inl hx), ?_, ?_, hDcl⟩
      · intro x hx
        rcases hx with hx | hx
        · exact hx
        · simp at hx
      · intro x hB
        exact (hBdisj x hB).1
      · intro x
        show visited x = true ↔ _
        rw [hvis x]
        simp
    | cons cell rest =>
      rw [bfs]
      set nbrs := (List.range 81).filter
        (fun nb => !visited nb && conn cell nb) with hnbrs
      set visited' := nbrs.foldl setVisited visited with hvisited'
      have hn81 : ∀ x ∈ nbrs, x < 81 := by
        intro x hx
        rw [hnbrs, List.mem_filter, List.mem_range] at hx
        exact hx.1
      have hnunv : ∀ x ∈ nbrs, visited x = false := by
        intro x hx
        rw [hnbrs, List.mem_filter] at hx
        have := hx.2
        simp only [Bool.and_eq_true, Bool.not_eq_true'] at this
        exact this.1
      have hnconn : ∀ x ∈ nbrs, conn cell x = true := by
        intro x hx
        rw [hnbrs, List.mem_filter] at hx
        have := hx.2
        simp only [Bool.and_eq_true] at this
        exact this.2
      have hnnd : nbrs.Nodup := (List.nodup_range 81).filter _
      have hv'x : ∀ x, visited' x = (visited x || decide (x ∈ nbrs)) :=
        fun x => foldl_setVisited_eq nbrs visited x
      have hcellv : visited cell = true := by
        rw [hvis]
        right; right; simp
      have hcell81 : cell < 81 := hq81 cell (by simp)
      have hcellD : cell ∉ D := fun h => hDq cell h (by simp)
      have hcellrest : cell ∉ rest := (List.nodup_cons.mp hqnd).1
      have hrestnd : rest.Nodup := (List.nodup_cons.mp hqnd).2
      have hmapped : (D.map cellOf) ++ [(cell / 9, cell % 9)] =
          (D ++ [cell]).map cellOf := by
        simp [cellOf]
      rw [hmapped]
      have hcount : unvisitedCount visited' + nbrs.length =
          unvisitedCount visited :=
        unvisitedCount_foldl hn81 hnunv hnnd
      obtain ⟨D', h1, h2, h3, h4, h5, h6, h7, h8⟩ :=
        ih (rest ++ nbrs) (D ++ [cell]) visited'
          (by
            simp only [List.length_append, List.length_cons] at hfuel ⊢
            omega)
          (by
            rw [List.nodup_append]
            refine ⟨hrestnd, hnnd, ?_⟩
            intro x hxr hxn
            exact absurd (hvis x |>.mpr (Or.inr (Or.inr (by simp [hxr]))))
              (by simp [hnunv x hxn]))
          (by
            rw [List.nodup_append]
            refine ⟨hDnd, by simp, ?_⟩
            intro x hxD hxc
            rw [List.mem_singleton] at hxc
            exact hcellD (hxc ▸ hxD))
          (by
            intro x hx
            rw [List.mem_append] at hx ⊢
            rcases hx with hx | hx
            · rintro (hr | hn)
              · exact hDq x hx (by simp [hr])
              · exact absurd (hvis x |>.mpr (Or.inr (Or.inl hx)))
                  (by simp [hnunv x hn])
            · rw [List.mem_singleton] at hx
              subst hx
              rintro (hr | hn)
              · exact hcellrest hr
              · exact absurd hcellv (by simp [hnunv x hn]))
          (by
            intro x hx
            rw [List.mem_append] at hx
            rcases hx with hx | hx
            · exact hD81 x hx
            · rw [List.mem_singleton] at hx
              exact hx ▸ hcell81)
          (by
            intro x hx
            rw [List.mem_append] at hx
            rcases hx with hx | hx
            · exact hq81 x (by simp [hx])
            · exact hn81 x hx)
          (by
            intro x
            rw [hv'x x, Bool.or_eq_true, hvis x]
            simp only [List.mem_append, List.mem_singleton, List.mem_cons,
              decide_eq_true_eq]
            tauto)
          (by
            intro x hB
            constructor
            · rw [List.mem_append, List.mem_singleton]
              rintro (hx | rfl)
              · exact (hBdisj x hB).1 hx
              · exact (hBdisj x hB).2 (by simp)
            · rw [List.mem_append]
              rintro (hx | hx)
              · exact (hBdisj x hB).2 (by simp [hx])
              · exact absurd (hvis x |>.mpr (Or.inl hB))
                  (by simp [hnunv x hx]))
          (by
            intro x hx
            rcases hx with hx | hx
            · rw [List.mem_append, List.mem_singleton] at hx
              rcases hx with hx | rfl
              · exact hreach x (Or.inl hx)
              · exact hreach x (Or.inr (by simp))
            · rw [List.mem_append] at hx
              rcases hx with hx | hx
              · exact hreach x (Or.inr (by simp [hx]))
              · exact Relation.ReflTransGen.tail
                  (hreach cell (Or.inr (by simp))) (hnconn x hx))
          (by
            intro x hx y hconn
            rw [List.mem_append, List.mem_singleton] at hx
            rw [hv'x y, Bool.or_eq_true]
            rcases hx with hx | hxc
            · exact Or.inl (hDcl x hx y hconn)
            · have hconn' : conn cell y = true := by rw [← hxc]; exact hconn
              by_cases hvy : visited y = true
              · exact Or.inl hvy
              · right
                rw [decide_eq_true_eq, hnbrs, List.mem_filter, List.mem_range]
                refine ⟨(hbound cell y hconn').2, ?_⟩
                simp only [Bool.and_eq_true, Bool.not_eq_true']
                exact ⟨by simpa using hvy, hconn'⟩)
      refine ⟨D', h1, h2, ?_, h4, h5, h6, h7, h8⟩
      intro x hx
      apply h3
      rcases hx with hx | hx
      · exact Or.inl (by rw [List.mem_append]; exact Or.inl hx)
      · rw [List.mem_cons] at hx
        rcases hx with rfl | hx
        · exact Or.inl (by rw [List.mem_append, List.mem_singleton]; exact Or.inr rfl)
        · exact Or.inr (by rw [List.mem_append]; exact Or.inl hx)

end ImageProcessor

end NumberPlace

namespace NumberPlace

namespace ImageProcessor

/-- One BFS call from a fresh start cell `s`, with the previously visited
set `v₀` closed under the (symmetric) connection relation: the produced
region enumerates the reachability class of `s` exactly once, and the new
visited set is `v₀` plus that class. -/
lemma bfs_component {conn : ℕ → ℕ → Bool}
    (hsym : ∀ a b, conn a b = conn b a)
    (hbound : ∀ a b, conn a b = true → a < 81 ∧ b < 81)
    {v₀ : ℕ → Bool} {s : ℕ} (hs : s < 81) (hvs : v₀ s = false)
    (hclosed : ∀ x y, v₀ x = true → conn x y = true → v₀ y = true) :
    ∃ D' : List ℕ,
      (bfs conn 100 [s] (setVisited v₀ s) []).1 = D'.map cellOf ∧
      D'.Nodup ∧
      (∀ x, x ∈ D' ↔ Reach conn s x) ∧
      (∀ x ∈ D', x < 81) ∧
      (∀ x, v₀ x = true → x ∉ D') ∧
      (∀ x, (bfs conn 100 [s] (setVisited v₀ s) []).2 x = true ↔
        (v₀ x = true ∨ x ∈ D')) := by
  have hsv : ∀ x, setVisited v₀ s x = true ↔ (v₀ x = true ∨ x = s) := by
    intro x
    rw [setVisited_eq]
    by_cases hx : x = s <;> simp [hx]
  obtain ⟨D', h1, h2, h3, h4, h5, h6, h7, h8⟩ :=
    bfs_spec hbound s v₀ 100 [s] [] (setVisited v₀ s)
      (by
        have := unvisitedCount_le (setVisited v₀ s)
        simp only [List.length_singleton]
        omega)
      (by simp) (by simp) (by simp) (by simp)
      (by
        intro x hx
        rw [List.mem_singleton] at hx
        exact hx ▸ hs)
      (by
        intro x
        rw [hsv x]
        simp)
      (by
        intro x hB
        refine ⟨by simp, ?_⟩
        rw [List.mem_singleton]
        rintro rfl
        rw [hvs] at hB
        exact absurd hB (by simp))
      (by
        intro x hx
        rcases hx with hx | hx
        · simp at hx
        · rw [List.mem_singleton] at hx
          exact hx ▸ Relation.ReflTransGen.refl)
      (by intro x hx; simp at hx)
  have hsD : s ∈ D' := h3 s (Or.inr (by simp))
  refine ⟨D', by simpa using h1, h2, ?_, h4, h6, ?_⟩
  · intro x
    constructor
    · exact h5 x
    · intro hreach
      induction hreach with
      | refl => exact hsD
      | tail hab hbc ihab =>
        rename_i b c
        have hvc := h8 b ihab c hbc
        rw [h7 c] at hvc
        rcases hvc with hvc | hvc
        · exfalso
          have hcb : conn c b = true := by
            rw [hsym c b]
            exact hbc
          exact absurd ihab (h6 b (hclosed c b hvc hcb))
        · exact hvc
  · intro x
    exact h7 x

end ImageProcessor

end NumberPlace

namespace NumberPlace

namespace ImageProcessor

/-- Specification of the outer fold of `findConnectedRegions`. -/
lemma foldl_regionStep_spec {conn : ℕ → ℕ → Bool}
    (hsym : ∀ a b, conn a b = conn b a)
    (hbound : ∀ a b, conn a b = true → a < 81 ∧ b < 81) :
    ∀ (l : List ℕ) (v : ℕ → Bool) (CS : List (List ℕ)),
      (∀ x ∈ l, x < 81) →
      ComponentsOK conn CS →
      (∀ x, v x = true ↔ ∃ C ∈ CS, x ∈ C) →
      CS.Pairwise (fun C₁ C₂ => ∀ x ∈ C₁, x ∉ C₂) →
      ∃ NEW : List (List ℕ),
        (l.foldl (regionStep conn)
            (v, CS.map (fun C => C.map cellOf))).2 =
          (CS ++ NEW).map (fun C => C.map cellOf) ∧
        ComponentsOK conn (CS ++ NEW) ∧
        (∀ x, (l.foldl (regionStep conn)
            (v, CS.map (fun C => C.map cellOf))).1 x = true ↔
          ∃ C ∈ CS ++ NEW, x ∈ C) ∧
        (CS ++ NEW).Pairwise (fun C₁ C₂ => ∀ x ∈ C₁, x ∉ C₂) ∧
        (∀ x ∈ l, ∃ C ∈ CS ++ NEW, x ∈ C) := by
  intro l
  induction l with
  | nil =>
    intro v CS _ hCS hvis hdisj
    exact ⟨[], by simp, by simpa using hCS, by simpa using hvis,
      by simpa using hdisj, by simp⟩
  | cons a t ih =>
    intro v CS hl81 hCS hvis hdisj
    rw [List.foldl_cons]
    by_cases hva : v a = true
    · rw [show regionStep conn (v, CS.map fun C => C.map cellOf) a =
          (v, CS.map fun C => C.map cellOf) by
        rw [regionStep, if_pos hva]]
      obtain ⟨NEW, g1, g2, g3, g4, g5⟩ :=
        ih v CS (fun x hx => hl81 x (by simp [hx])) hCS hvis hdisj
      refine ⟨NEW, g1, g2, g3, g4, ?_⟩
      intro x hx
      rw [List.mem_cons] at hx
      rcases hx with rfl | hx
      · obtain ⟨C, hC, hxC⟩ := (hvis x).mp hva
        exact ⟨C, by simp [hC], hxC⟩
      · exact g5 x hx
    · have hva' : v a = false := by simpa using hva
      have ha81 : a < 81 := hl81 a (by simp)
      have hclosed : ∀ x y, v x = true → conn x y = true → v y = true := by
        intro x y hx hc
        rw [hvis] at hx ⊢
        obtain ⟨C, hC, hxC⟩ := hx
        obtain ⟨-, -, s, -, hiff⟩ := hCS C hC
        exact ⟨C, hC, (hiff y).mpr
          (Relation.ReflTransGen.tail ((hiff x).mp hxC) hc)⟩
      obtain ⟨D', b1, b2, b3, b4, b5, b6⟩ :=
        bfs_component hsym hbound ha81 hva' hclosed
      have hstep : regionStep conn (v, CS.map fun C => C.map cellOf) a =
          ((bfs conn 100 [a] (setVisited v a) []).2,
           (CS ++ [D']).map fun C => C.map cellOf) := by
        rw [regionStep, if_neg (by simp [hva'])]
        simp [b1]
      rw [hstep]
      have hCS' : ComponentsOK conn (CS ++ [D']) := by
        intro C hC
        rw [List.mem_append, List.mem_singleton] at hC
        rcases hC with hC | rfl
        · exact hCS C hC
        · exact ⟨b2, b4, a, ha81, b3⟩
      have hvis' : ∀ x, (bfs conn 100 [a] (setVisited v a) []).2 x = true ↔
          ∃ C ∈ CS ++ [D'], x ∈ C := by
        intro x
        rw [b6 x, hvis x]
        constructor
        · rintro (⟨C, hC, hxC⟩ | hxD)
          · exact ⟨C, by simp [hC], hxC⟩
          · exact ⟨D', by simp, hxD⟩
        · rintro ⟨C, hC, hxC⟩
          rw [List.mem_append, List.mem_singleton] at hC
          rcases hC with hC | rfl
          · exact Or.inl ⟨C, hC, hxC⟩
          · exact Or.inr hxC
      have hdisj' : (CS ++ [D']).Pairwise
          (fun C₁ C₂ => ∀ x ∈ C₁, x ∉ C₂) := by
        rw [List.pairwise_append]
        refine ⟨hdisj, by simp, ?_⟩
        intro C hC C' hC' x hxC
        rw [List.mem_singleton] at hC'
        subst hC'
        exact b5 x ((hvis x).mpr ⟨C, hC, hxC⟩)
      obtain ⟨NEW, g1, g2, g3, g4, g5⟩ :=
        ih _ (CS ++ [D']) (fun x hx => hl81 x (by simp [hx])) hCS' hvis' hdisj'
      refine ⟨[D'] ++ NEW, ?_, ?_, ?_, ?_, ?_⟩
      · rw [g1, ← List.append_assoc]
      · rw [← List.append_assoc]
        exact g2
      · intro x
        rw [g3 x, ← List.append_assoc]
      · rw [← List.append_assoc]
        exact g4
      · intro x hx
        rw [List.mem_cons] at hx
        rw [← List.append_assoc]
        rcases hx with rfl | hx
        · exact ⟨D', by simp, (b3 x).mpr Relation.ReflTransGen.refl⟩
        · exact g5 x hx

end ImageProcessor

end NumberPlace

namespace NumberPlace

namespace ImageProcessor

/-- `findConnectedRegions` returns the reachability classes of the
connection graph, in discovery order: pairwise disjoint, duplicate-free,
covering every cell 0..80. -/
lemma findConnectedRegions_spec {conn : ℕ → ℕ → Bool}
    (hsym : ∀ a b, conn a b = conn b a)
    (hbound : ∀ a b, conn a b = true → a < 81 ∧ b < 81) :
    ∃ CS : List (List ℕ),
      findConnectedRegions conn = CS.map (fun C => C.map cellOf) ∧
      ComponentsOK conn CS ∧
      CS.Pairwise (fun C₁ C₂ => ∀ x ∈ C₁, x ∉ C₂) ∧
      (∀ x < 81, ∃ C ∈ CS, x ∈ C) := by
  obtain ⟨NEW, g1, g2, g3, g4, g5⟩ :=
    foldl_regionStep_spec hsym hbound (List.range 81) (fun _ => false) []
      (fun x hx => List.mem_range.mp hx) (by intro C hC; simp at hC)
      (by simp) (by simp)
  refine ⟨NEW, ?_, by simpa using g2, by simpa using g4, ?_⟩
  · rw [findConnectedRegions]
    simpa using g1
  · intro x hx
    simpa using g5 x (List.mem_range.mpr hx)

lemma count_map_cellOf {L : List ℕ} (h81 : ∀ x ∈ L, x < 81) {r c : ℕ}
    (hr : r < 9) (hc : c < 9) :
    (L.map cellOf).count (r, c) = L.count (9 * r + c) := by
  induction L with
  | nil => simp
  | cons a t ih =>
    have ha := h81 a (by simp)
    have iht := ih (fun x hx => h81 x (by simp [hx]))
    simp only [List.map_cons, List.count_cons, iht]
    congr 1
    have heq : (cellOf a == (r, c)) = (a == 9 * r + c) := by
      rw [Bool.eq_iff_iff]
      simp only [beq_iff_eq, cellOf, Prod.mk.injEq]
      omega
    rw [heq]

end ImageProcessor

end NumberPlace

namespace NumberPlace

lemma count_eq_one_of_nodup_mem {α : Type} [BEq α] [LawfulBEq α]
    {l : List α} {a : α} (hnd : l.Nodup) (ha : a ∈ l) : l.count a = 1 := by
  induction l with
  | nil => simp at ha
  | cons b t ih =>
    rw [List.nodup_cons] at hnd
    rw [List.count_cons]
    rcases List.mem_cons.mp ha with rfl | hat
    · rw [List.count_eq_zero.mpr hnd.1]
      simp
    · rw [ih hnd.2 hat]
      have hne : (a == b) = false := by
        rw [beq_eq_false_iff_ne]
        rintro rfl
        exact hnd.1 hat
      simp [hne]
      rintro rfl
      rw [beq_eq_false_iff_ne] at hne
      exact hne rfl

namespace ImageProcessor

lemma connGraph_symm (tH tV : ℕ → ℕ → Bool) (a b : ℕ) :
    connGraph tH tV a b = connGraph tH tV b a := by
  rw [Bool.eq_iff_iff]
  simp only [connGraph, Bool.or_eq_true]
  tauto

lemma connGraph_bounded (tH tV : ℕ → ℕ → Bool) (a b : ℕ)
    (h : connGraph tH tV a b = true) : a < 81 ∧ b < 81 := by
  simp only [connGraph, Bool.or_eq_true, Bool.and_eq_true, beq_iff_eq,
    decide_eq_true_eq] at h
  rcases h with ⟨⟨⟨h1, h2⟩, h3⟩, -⟩ | ⟨⟨⟨h1, h2⟩, h3⟩, -⟩ |
    ⟨⟨h1, h2⟩, -⟩ | ⟨⟨h1, h2⟩, -⟩ <;> omega

end ImageProcessor

open ImageProcessor in
/-- C7: the reconstructor links row/column-adjacent cells iff the boundary
segment between them is thin, and on any thickness map whose induced
reachability relation partitions the 81 cells into nine classes of nine
cells each, the BFS component extraction returns exactly 9 regions of 9
cells covering every position exactly once. -/
theorem C7_reconstruction (tH tV : ℕ → ℕ → Bool) (f : ℕ → ℕ)
    (hf9 : ∀ x < 81, f x < 9)
    (hfR : ∀ x < 81, ∀ y < 81,
      (Reach (connGraph tH tV) x y ↔ f x = f y))
    (hfcard : ∀ k < 9,
      ((Finset.range 81).filter fun x => f x = k).card = 9) :
    (∀ r < 9, ∀ c < 8,
      connGraph tH tV (9 * r + c) (9 * r + c + 1) = !tV (c + 1) r) ∧
    (∀ r < 8, ∀ c < 9,
      connGraph tH tV (9 * r + c) (9 * (r + 1) + c) = !tH (r + 1) c) ∧
    ValidPartition (constructRegionsFromThickLines tH tV) := by
  refine ⟨?_, ?_, ?_⟩
  · intro r hr c hc
    have h1 : (9 * r + c) % 9 = c := by omega
    have h2 : (9 * r + c) / 9 = r := by omega
    have h3 : 9 * r + c < 81 := by omega
    rw [connGraph]
    rw [show ((9 * r + c + 1 : ℕ) == 9 * r + c + 1) = true by simp]
    rw [show ((9 * r + c : ℕ) == 9 * r + c + 1 + 1) = false by
      simp only [beq_eq_false_iff_ne, ne_eq]; omega]
    rw [show ((9 * r + c + 1 : ℕ) == 9 * r + c + 9) = false by
      simp only [beq_eq_false_iff_ne, ne_eq]; omega]
    rw [show ((9 * r + c : ℕ) == 9 * r + c + 1 + 9) = false by
      simp only [beq_eq_false_iff_ne, ne_eq]; omega]
    simp [h1, h2, h3, hc]
  · intro r hr c hc
    have h1 : (9 * r + c) % 9 = c := by omega
    have h2 : (9 * r + c) / 9 = r := by omega
    have h3 : 9 * r + c < 72 := by omega
    have h4 : (9 * (r + 1) + c : ℕ) = 9 * r + c + 9 := by ring
    rw [connGraph, h4]
    rw [show ((9 * r + c + 9 : ℕ) == 9 * r + c + 1) = false by
      simp only [beq_eq_false_iff_ne, ne_eq]; omega]
    rw [show ((9 * r + c : ℕ) == 9 * r + c + 9 + 1) = false by
      simp only [beq_eq_false_iff_ne, ne_eq]; omega]
    rw [show ((9 * r + c + 9 : ℕ) == 9 * r + c + 9) = true by simp]
    rw [show ((9 * r + c : ℕ) == 9 * r + c + 9 + 9) = false by
      simp only [beq_eq_false_iff_ne, ne_eq]; omega]
    simp [h1, h2, h3]
  · obtain ⟨CS, hreg, hCS, hdisj, hcov⟩ :=
      findConnectedRegions_spec (connGraph_symm tH tV)
        (connGraph_bounded tH tV)
    have hchar : ∀ C ∈ CS, ∃ s, s < 81 ∧ ∀ x, x ∈ C ↔ (x < 81 ∧ f x = f s) := by
      intro C hC
      obtain ⟨hnd, hb, s, hs, hiff⟩ := hCS C hC
      refine ⟨s, hs, fun x => ?_⟩
      constructor
      · intro hx
        have hx81 := hb x hx
        exact ⟨hx81, ((hfR s hs x hx81).mp ((hiff x).mp hx)).symm⟩
      · rintro ⟨hx81, hfx⟩
        exact (hiff x).mpr ((hfR s hs x hx81).mpr hfx.symm)
    have hlen9 : ∀ C ∈ CS, C.length = 9 := by
      intro C hC
      obtain ⟨hnd, hb, -⟩ := hCS C hC
      obtain ⟨s, hs, hiffc⟩ := hchar C hC
      have : C.toFinset = (Finset.range 81).filter (fun x => f x = f s) := by
        ext a
        rw [List.mem_toFinset, Finset.mem_filter, Finset.mem_range, hiffc a]
      have hcard := List.toFinset_card_of_nodup hnd
      rw [this, hfcard (f s) (hf9 s hs)] at hcard
      omega
    have hFnd : CS.flatten.Nodup := by
      rw [List.nodup_flatten]
      exact ⟨fun C hC => (hCS C hC).1,
        hdisj.imp fun h => fun a ha => h a ha⟩
    have hFmem : ∀ x, x ∈ CS.flatten ↔ x < 81 := by
      intro x
      rw [List.mem_flatten]
      constructor
      · rintro ⟨C, hC, hxC⟩
        exact (hCS C hC).2.1 x hxC
      · intro hx
        exact hcov x hx
    have hF81 : CS.flatten.length = 81 := by
      have h1 := List.toFinset_card_of_nodup hFnd
      have h2 : CS.flatten.toFinset = Finset.range 81 := by
        ext a
        rw [List.mem_toFinset, Finset.mem_range, hFmem a]
      rw [h2] at h1
      simpa using h1.symm
    have hCSlen : CS.length = 9 := by
      have h1 := List.length_flatten CS
      have h2 : (CS.map List.length).sum = (CS.map List.length).length • 9 :=
        List.sum_eq_card_nsmul _ 9 (by
          intro x hx
          obtain ⟨C, hC, rfl⟩ := List.mem_map.mp hx
          exact hlen9 C hC)
      rw [List.length_map, smul_eq_mul] at h2
      omega
    rw [constructRegionsFromThickLines, hreg]
    refine ⟨by rw [List.length_map]; exact hCSlen, ?_, ?_⟩
    · intro region hregion
      obtain ⟨C, hC, rfl⟩ := List.mem_map.mp hregion
      refine ⟨by rw [List.length_map]; exact hlen9 C hC, ?_⟩
      intro p hp
      obtain ⟨x, hx, rfl⟩ := List.mem_map.mp hp
      have hx81 := (hCS C hC).2.1 x hx
      exact ⟨show x / 9 < 9 by omega, show x % 9 < 9 by omega⟩
    · intro p hp
      obtain ⟨hr, hc⟩ := mem_cellsList.mp hp
      have hflat : (CS.map fun C => C.map cellOf).flatten =
          CS.flatten.map cellOf := (List.map_flatten cellOf CS).symm
      rw [hflat]
      obtain ⟨r, c⟩ := p
      rw [count_map_cellOf (fun x hx => (hFmem x).mp hx) hr hc]
      exact count_eq_one_of_nodup_mem hFnd ((hFmem _).mpr (by omega))

end NumberPlace

namespace NumberPlace

namespace ImageProcessor

lemma rows_adj (a b : ℕ) :
    connGraph rowsThickH rowsThickV a b = true ↔
      ((b = a + 1 ∧ a < 81 ∧ a % 9 < 8) ∨
       (a = b + 1 ∧ b < 81 ∧ b % 9 < 8)) := by
  simp [connGraph, rowsThickH, rowsThickV]
  tauto

lemma rows_reach_right (k : ℕ) :
    ∀ x, x < 81 → x % 9 + k ≤ 8 →
      Reach (connGraph rowsThickH rowsThickV) x (x + k) := by
  induction k with
  | zero => intro x _ _; exact Relation.ReflTransGen.refl
  | succ k ih =>
    intro x hx hk
    refine Relation.ReflTransGen.tail (ih x hx (by omega)) ?_
    show connGraph rowsThickH rowsThickV (x + k) (x + k + 1) = true
    rw [rows_adj]
    left
    omega

lemma rows_reach_iff :
    ∀ x < 81, ∀ y < 81,
      (Reach (connGraph rowsThickH rowsThickV) x y ↔ x / 9 = y / 9) := by
  have hsymm : Symmetric (Adj (connGraph rowsThickH rowsThickV)) := by
    intro a b hab
    show connGraph rowsThickH rowsThickV b a = true
    rw [← connGraph_symm]
    exact hab
  intro x hx y hy
  constructor
  · intro hreach
    induction hreach with
    | refl => rfl
    | tail hab hbc ih =>
      rename_i b c
      have := (rows_adj b c).mp hbc
      omega
  · intro hrow
    rcases le_or_lt x y with hle | hlt
    · have hk : y = x + (y - x) := by omega
      rw [hk]
      exact rows_reach_right (y - x) x hx (by omega)
    · have hk : x = y + (x - y) := by omega
      refine (Relation.ReflTransGen.symmetric hsymm) ?_
      rw [hk]
      exact rows_reach_right (x - y) y hy (by omega)

end ImageProcessor

open ImageProcessor in
/-- Witness for C7: the boundary map with every horizontal line thick and
every vertical line thin encodes the rows partition; `f x = x / 9`. -/
theorem C7_witness :
    (∀ x < 81, x / 9 < 9) ∧
    (∀ x < 81, ∀ y < 81,
      (Reach (connGraph rowsThickH rowsThickV) x y ↔ x / 9 = y / 9)) ∧
    (∀ k < 9, ((Finset.range 81).filter fun x => x / 9 = k).card = 9) ∧
    ((∀ r < 9, ∀ c < 8,
        connGraph rowsThickH rowsThickV (9 * r + c) (9 * r + c + 1) =
          !rowsThickV (c + 1) r) ∧
     (∀ r < 8, ∀ c < 9,
        connGraph rowsThickH rowsThickV (9 * r + c) (9 * (r + 1) + c) =
          !rowsThickH (r + 1) c) ∧
     ValidPartition (constructRegionsFromThickLines rowsThickH rowsThickV)) :=
  ⟨by decide, rows_reach_iff, by decide,
    C7_reconstruction rowsThickH rowsThickV (fun x => x / 9) (by decide)
      rows_reach_iff (by decide)⟩

end NumberPlace
